import Mathlib

/-!
Shallow embedding of `src/models/CommonVAE.py` (classes `LatentStateEncoder`
and `EmissionDecoder`).

Tensors are modelled as a shape (a list of dimension sizes) together with a
flat, row-major data list of real numbers, matching a contiguous PyTorch
tensor.  Each `torch.nn` layer appearing in the source is translated to a
function from tensors to `Option` tensors: the `none` result models the
framework raising a shape error, and the data of a successful result is given
by the documented semantics of the layer (cross-correlation for `Conv2d`,
transposed convolution for `ConvTranspose2d`, per-channel affine
normalization with running statistics for `BatchNorm` in inference mode,
batch statistics in training mode, and so on).  `view` / `Flatten` /
`UnFlatten` are data-preserving reshapes, as for contiguous PyTorch tensors.

Indexing a parameter or data list out of range yields `0`; shape checks never
depend on the data, so acceptance of an input is decided by the (computable)
shape arithmetic exactly as in the framework.
-/

namespace CommonVAE

/-- Tensor model: a shape `[d0, d1, ...]` and a flat row-major data list. -/
structure Tensor where
  shape : List ℕ
  data : List ℝ

/-- Builder for flat data lists: the list `[f 0, f 1, ..., f (n-1)]`. -/
def build1 (n : ℕ) (f : ℕ → ℝ) : List ℝ := (List.range n).map f

/-- LeakyReLU with the PyTorch default negative slope 0.01. -/
noncomputable def leakyReLU (x : ℝ) : ℝ := if x < 0 then x / 100 else x

/-- Logistic sigmoid, the semantics of `nn.Sigmoid`. -/
noncomputable def sigmoid (x : ℝ) : ℝ := 1 / (1 + Real.exp (-x))

/-- PyTorch default epsilon of `nn.BatchNorm1d` / `nn.BatchNorm2d`. -/
noncomputable def bnEps : ℝ := 1 / 100000

/-- PyTorch default momentum of `nn.BatchNorm1d` / `nn.BatchNorm2d`. -/
noncomputable def bnMomentum : ℝ := 1 / 10

/-- Read entry `i` of the row `r` of a data list whose rows have `rIn`
entries; out-of-row reads yield `0` (layers only read inside the row). -/
noncomputable def rowFn (rIn : ℕ) (d : List ℝ) (r : ℕ) : ℕ → ℝ :=
  fun i => if i < rIn then d.getD (r * rIn + i) 0 else 0

/-- Data of a layer that maps each of the `n` dim-0 slices (rows) of its
input, of flat size `rIn`, independently to an output row of flat size
`rOut`, entry `j` of output row `r` being `g row j` where `row` reads input
row `r`.  Every layer of `CommonVAE.py` acts on dim 0 this way. -/
noncomputable def rowData (n rIn rOut : ℕ) (g : (ℕ → ℝ) → ℕ → ℝ)
    (d : List ℝ) : List ℝ :=
  build1 (n * rOut) fun idx => g (rowFn rIn d (idx / rOut)) (idx % rOut)

/-- Output entry of `nn.Conv2d(cin, cout, kernel_size=k, stride=s,
padding=(p, p))` on a `[c, h, w]` row: cross-correlation with zero padding,
weight layout `[cout, cin, k, k]`, plus bias.  `j` enumerates the flat
`[cout, hout, wout]` output row. -/
noncomputable def convG (c h w k s p hout wout : ℕ) (wt bs : List ℝ)
    (row : ℕ → ℝ) (j : ℕ) : ℝ :=
  let co := j / (hout * wout)
  let y := j / wout % hout
  let x := j % wout
  bs.getD co 0 +
    ∑ ci ∈ Finset.range c, ∑ i ∈ Finset.range k, ∑ jj ∈ Finset.range k,
      wt.getD (((co * c + ci) * k + i) * k + jj) 0 *
        (if p ≤ y * s + i ∧ y * s + i < h + p ∧ p ≤ x * s + jj ∧
            x * s + jj < w + p then
          row ((ci * h + (y * s + i - p)) * w + (x * s + jj - p)) else 0)

/-- Output entry of `nn.ConvTranspose2d(cin, cout, kernel_size=k, stride=s,
padding=(p, p), output_padding=(op, op))` on a `[c, h, w]` row: transposed
convolution, weight layout `[cin, cout, k, k]`, plus bias. -/
noncomputable def convTG (c cout h w k s p hout wout : ℕ) (wt bs : List ℝ)
    (row : ℕ → ℝ) (j : ℕ) : ℝ :=
  let co := j / (hout * wout)
  let y := j / wout % hout
  let x := j % wout
  bs.getD co 0 +
    ∑ ci ∈ Finset.range c, ∑ i ∈ Finset.range k, ∑ jj ∈ Finset.range k,
      wt.getD (((ci * cout + co) * k + i) * k + jj) 0 *
        (if i ≤ y + p ∧ (y + p - i) % s = 0 ∧ (y + p - i) / s < h ∧
            jj ≤ x + p ∧ (x + p - jj) % s = 0 ∧ (x + p - jj) / s < w then
          row ((ci * h + (y + p - i) / s) * w + (x + p - jj) / s) else 0)

/-- Output entry of inference-mode `nn.BatchNorm2d(c)` on a `[c, h, w]` row:
per-channel affine normalization by the running statistics `mu`, `va`. -/
noncomputable def bn2dG (hw : ℕ) (ga be mu va : List ℝ)
    (row : ℕ → ℝ) (j : ℕ) : ℝ :=
  let ci := j / hw
  ga.getD ci 0 * ((row j - mu.getD ci 0) / Real.sqrt (va.getD ci 0 + bnEps)) +
    be.getD ci 0

/-- Output entry of inference-mode `nn.BatchNorm1d(dd)` on a `[dd]` row. -/
noncomputable def bn1dG (ga be mu va : List ℝ) (row : ℕ → ℝ) (j : ℕ) : ℝ :=
  ga.getD j 0 * ((row j - mu.getD j 0) / Real.sqrt (va.getD j 0 + bnEps)) +
    be.getD j 0

/-- Output entry of `nn.AvgPool2d(k)` (stride `k`, no padding) on a
`[c, h, w]` row. -/
noncomputable def avgPoolG (h w k hout wout : ℕ) (row : ℕ → ℝ)
    (j : ℕ) : ℝ :=
  let ci := j / (hout * wout)
  let y := j / wout % hout
  let x := j % wout
  (∑ i ∈ Finset.range k, ∑ jj ∈ Finset.range k,
      row ((ci * h + (y * k + i)) * w + (x * k + jj))) / ((k * k : ℕ) : ℝ)

/-- Output entry of `nn.Linear(din, dout)`: weight layout `[dout, din]`,
plus bias. -/
noncomputable def linearG (din : ℕ) (wt bs : List ℝ) (row : ℕ → ℝ)
    (j : ℕ) : ℝ :=
  bs.getD j 0 + ∑ l ∈ Finset.range din, wt.getD (j * din + l) 0 * row l

/-- Layers of the two `nn.Sequential` pipelines of `CommonVAE.py`, with
their learned parameters (and, for batch normalization, running-statistics
buffers) stored in the layer, as in the PyTorch modules. -/
inductive Layer where
  | conv2d (cin cout k s p : ℕ) (wt bs : List ℝ)
  | batchNorm2d (c : ℕ) (ga be mu va : List ℝ)
  | leakyReLU
  | avgPool2d (k : ℕ)
  | flatten
  | linear (din dout : ℕ) (wt bs : List ℝ)
  | tanh
  | batchNorm1d (dd : ℕ) (ga be mu va : List ℝ)
  | unflatten (s : ℕ)
  | convT2d (cin cout k s p op : ℕ) (wt bs : List ℝ)
  | sigmoid

/-- Inference-mode forward semantics of one layer.  `none` models a shape
error raised by the framework; shape acceptance matches PyTorch (kernel not
larger than the padded input, matching channel counts, strictly positive
stride, `output_padding` smaller than the stride, reshapes only when the
element counts work out). -/
noncomputable def Layer.applyEval : Layer → Tensor → Option Tensor
  | .conv2d cin cout k s p wt bs, t =>
    match t.shape with
    | [n, c, h, w] =>
      if c = cin ∧ 0 < s ∧ k ≤ h + 2 * p ∧ k ≤ w + 2 * p then
        let hout := (h + 2 * p - k) / s + 1
        let wout := (w + 2 * p - k) / s + 1
        some ⟨[n, cout, hout, wout],
          rowData n (List.prod [c, h, w]) (List.prod [cout, hout, wout])
            (convG c h w k s p hout wout wt bs) t.data⟩
      else none
    | _ => none
  | .batchNorm2d c ga be mu va, t =>
    match t.shape with
    | [n, c', h, w] =>
      if c' = c then
        some ⟨[n, c', h, w],
          rowData n (List.prod [c', h, w]) (List.prod [c', h, w])
            (bn2dG (h * w) ga be mu va) t.data⟩
      else none
    | _ => none
  | .leakyReLU, t =>
    match t.shape with
    | n :: rest =>
      some ⟨n :: rest, rowData n rest.prod rest.prod
        (fun row j => CommonVAE.leakyReLU (row j)) t.data⟩
    | [] => none
  | .avgPool2d k, t =>
    match t.shape with
    | [n, c, h, w] =>
      if 0 < k ∧ k ≤ h ∧ k ≤ w then
        let hout := (h - k) / k + 1
        let wout := (w - k) / k + 1
        some ⟨[n, c, hout, wout],
          rowData n (List.prod [c, h, w]) (List.prod [c, hout, wout])
            (avgPoolG h w k hout wout) t.data⟩
      else none
    | _ => none
  | .flatten, t =>
    match t.shape with
    | n :: rest =>
      if 0 < n then some ⟨[n, rest.prod], t.data⟩ else none
    | [] => none
  | .linear din dout wt bs, t =>
    match t.shape with
    | [n, dd] =>
      if dd = din then
        some ⟨[n, dout], rowData n (List.prod [dd]) (List.prod [dout])
          (linearG din wt bs) t.data⟩
      else none
    | _ => none
  | .tanh, t =>
    match t.shape with
    | n :: rest =>
      some ⟨n :: rest, rowData n rest.prod rest.prod
        (fun row j => Real.tanh (row j)) t.data⟩
    | [] => none
  | .batchNorm1d dd ga be mu va, t =>
    match t.shape with
    | [n, d'] =>
      if d' = dd then
        some ⟨[n, d'], rowData n (List.prod [d']) (List.prod [d'])
          (bn1dG ga be mu va) t.data⟩
      else none
    | _ => none
  | .unflatten s, t =>
    match t.shape with
    | [n, dd] =>
      if 0 < n ∧ 0 < dd ∧ s * s ∣ dd then
        some ⟨[n, dd / (s * s), s, s], t.data⟩
      else none
    | _ => none
  | .convT2d cin cout k s p op wt bs, t =>
    match t.shape with
    | [n, c, h, w] =>
      if c = cin ∧ 0 < s ∧ op < s ∧ 0 < h ∧ 0 < w ∧
          2 * p < (h - 1) * s + k + op ∧ 2 * p < (w - 1) * s + k + op then
        let hout := (h - 1) * s + k + op - 2 * p
        let wout := (w - 1) * s + k + op - 2 * p
        some ⟨[n, cout, hout, wout],
          rowData n (List.prod [c, h, w]) (List.prod [cout, hout, wout])
            (convTG c cout h w k s p hout wout wt bs) t.data⟩
      else none
    | _ => none
  | .sigmoid, t =>
    match t.shape with
    | n :: rest =>
      some ⟨n :: rest, rowData n rest.prod rest.prod
        (fun row j => CommonVAE.sigmoid (row j)) t.data⟩
    | [] => none

/-- Sequential composition, the semantics of `nn.Sequential`. -/
noncomputable def runSeqEval : List Layer → Tensor → Option Tensor
  | [], t => some t
  | l :: ls, t => (Layer.applyEval l t).bind (runSeqEval ls)

/-- Learned parameters of one convolution / linear layer. -/
structure ConvP where
  w : List ℝ
  b : List ℝ

/-- Parameters and buffers of one batch-normalization layer: affine weight
`ga`/`be` and running statistics `mu`/`va`. -/
structure BNP where
  ga : List ℝ
  be : List ℝ
  mu : List ℝ
  va : List ℝ

/-- Constructor arguments and learned state of `LatentStateEncoder`:
`z_amort, num_filters, num_channels, latent_dim` plus the parameters of the
three `Conv2d` and `BatchNorm2d` layers, and of `initial_encoder_out`. -/
structure EncCfg where
  z_amort : ℕ
  num_filters : ℕ
  num_channels : ℕ
  latent_dim : ℕ
  c1 : ConvP
  c2 : ConvP
  c3 : ConvP
  b1 : BNP
  b2 : BNP
  b3 : BNP
  outP : ConvP

/-- The `self.initial_encoder = nn.Sequential(...)` pipeline of
`LatentStateEncoder.__init__` (`CommonVAE.py` lines 26-38).  `Flatten` is
repository code not under `src/`; it is modelled from the spec ("Flatten to
a 2D [batch, channels] tensor", i.e. `view(batch, -1)`). -/
def initial_encoder (e : EncCfg) : List Layer :=
  [.conv2d e.z_amort e.num_filters 5 2 2 e.c1.w e.c1.b,
   .batchNorm2d e.num_filters e.b1.ga e.b1.be e.b1.mu e.b1.va,
   .leakyReLU,
   .conv2d e.num_filters (e.num_filters * 2) 5 2 2 e.c2.w e.c2.b,
   .batchNorm2d (e.num_filters * 2) e.b2.ga e.b2.be e.b2.mu e.b2.va,
   .leakyReLU,
   .conv2d (e.num_filters * 2) (e.num_filters * 4) 5 2 2 e.c3.w e.c3.b,
   .batchNorm2d (e.num_filters * 4) e.b3.ga e.b3.be e.b3.mu e.b3.va,
   .leakyReLU,
   .avgPool2d 4,
   .flatten]

/-- Python slicing `x[:, :z]` on the second tensor dimension: clamps to the
available channel count and never errors (for tensors of rank at least 2). -/
noncomputable def sliceChannels (z : ℕ) (t : Tensor) : Option Tensor :=
  match t.shape with
  | n :: c :: rest =>
    let c' := min z c
    let rp := rest.prod
    some ⟨n :: c' :: rest,
      build1 (n * (c' * rp)) fun idx =>
        t.data.getD
          ((idx / (c' * rp) * c + idx % (c' * rp) / rp) * rp
            + idx % (c' * rp) % rp) 0⟩
  | _ => none

/-- `LatentStateEncoder.forward` (inference mode): slice the first `z_amort`
channel-groups, run `initial_encoder`, then `initial_encoder_out` (a
`Linear(num_filters * 4, latent_dim)`) and `out_act` (a `Tanh`). -/
noncomputable def LatentStateEncoder.forwardEval (e : EncCfg) (x : Tensor) :
    Option Tensor :=
  (sliceChannels e.z_amort x).bind fun x0 =>
  (runSeqEval (initial_encoder e) x0).bind fun z0 =>
  (Layer.applyEval (.linear (e.num_filters * 4) e.latent_dim e.outP.w e.outP.b)
    z0).bind fun z1 =>
  Layer.applyEval .tanh z1

/-- Constructor arguments and learned state of `EmissionDecoder`. -/
structure DecCfg where
  batch_size : ℕ
  generation_len : ℕ
  dim : ℕ
  num_filters : ℕ
  num_channels : ℕ
  latent_dim : ℕ
  lin : ConvP
  b0 : BNP
  d1 : ConvP
  d2 : ConvP
  d3 : ConvP
  d4 : ConvP
  m1 : BNP
  m2 : BNP
  m3 : BNP

/-- The derived `self.conv_dim = num_filters * 4 ** 3` of
`EmissionDecoder.__init__`. -/
def conv_dim (dc : DecCfg) : ℕ := dc.num_filters * 4 ^ 3

/-- The `self.decoder = nn.Sequential(...)` pipeline of
`EmissionDecoder.__init__` (`CommonVAE.py` lines 69-88).  `UnFlatten(4)` is
repository code not under `src/`; it is modelled from the spec ("Un-flatten
to a 4x4 spatial feature map with conv_dim/16 channels", i.e.
`view(batch, -1, 4, 4)`). -/
def decoder (dc : DecCfg) : List Layer :=
  [.linear dc.latent_dim (conv_dim dc) dc.lin.w dc.lin.b,
   .batchNorm1d (conv_dim dc) dc.b0.ga dc.b0.be dc.b0.mu dc.b0.va,
   .leakyReLU,
   .unflatten 4,
   .convT2d (conv_dim dc / 16) (dc.num_filters * 4) 4 1 0 0 dc.d1.w dc.d1.b,
   .batchNorm2d (dc.num_filters * 4) dc.m1.ga dc.m1.be dc.m1.mu dc.m1.va,
   .leakyReLU,
   .convT2d (dc.num_filters * 4) (dc.num_filters * 2) 5 2 1 0 dc.d2.w dc.d2.b,
   .batchNorm2d (dc.num_filters * 2) dc.m2.ga dc.m2.be dc.m2.mu dc.m2.va,
   .leakyReLU,
   .convT2d (dc.num_filters * 2) dc.num_filters 5 2 1 1 dc.d3.w dc.d3.b,
   .batchNorm2d dc.num_filters dc.m3.ga dc.m3.be dc.m3.mu dc.m3.va,
   .leakyReLU,
   .convT2d dc.num_filters 1 5 1 2 0 dc.d4.w dc.d4.b,
   .sigmoid]

/-- The reshape `zts.contiguous().view([zts.shape[0] * zts.shape[1], -1])`
of `EmissionDecoder.forward` line 97: merge the first two dimensions; `-1`
is inferable exactly when the merged dimension is nonzero.  `contiguous()`
is the identity on our contiguous tensor model. -/
noncomputable def flattenBT (t : Tensor) : Option Tensor :=
  match t.shape with
  | s0 :: s1 :: rest =>
    if 0 < s0 * s1 then some ⟨[s0 * s1, rest.prod], t.data⟩ else none
  | _ => none

/-- The reshape
`x_rec.view([self.batch_size, x_rec.shape[0] // self.batch_size, self.dim,
self.dim])` of `EmissionDecoder.forward` line 103: succeeds exactly when the
element counts match (Python `//` on a zero `batch_size` raises). -/
noncomputable def finalView (bs dim : ℕ) (t : Tensor) : Option Tensor :=
  match t.shape with
  | s0 :: rest =>
    if 0 < bs ∧ (s0 :: rest).prod = List.prod [bs, s0 / bs, dim, dim] then
      some ⟨[bs, s0 / bs, dim, dim], t.data⟩
    else none
  | _ => none

/-- `EmissionDecoder.forward` (inference mode), `CommonVAE.py` lines 90-104. -/
noncomputable def EmissionDecoder.forwardEval (dc : DecCfg) (zts : Tensor) :
    Option Tensor :=
  (flattenBT zts).bind fun z0 =>
  (runSeqEval (decoder dc) z0).bind fun xr =>
  finalView dc.batch_size dc.dim xr

/-- Batch mean of channel `ci` over an `[n, c, h, w]` data list, as computed
by training-mode `nn.BatchNorm2d`. -/
noncomputable def bnBatchMean2d (n c h w : ℕ) (d : List ℝ) (ci : ℕ) : ℝ :=
  (∑ bi ∈ Finset.range n, ∑ y ∈ Finset.range h, ∑ x ∈ Finset.range w,
    d.getD (((bi * c + ci) * h + y) * w + x) 0) / ((n * h * w : ℕ) : ℝ)

/-- Biased batch variance of channel `ci` (used to normalize the output in
training mode). -/
noncomputable def bnBatchVar2d (n c h w : ℕ) (d : List ℝ) (ci : ℕ) : ℝ :=
  (∑ bi ∈ Finset.range n, ∑ y ∈ Finset.range h, ∑ x ∈ Finset.range w,
    (d.getD (((bi * c + ci) * h + y) * w + x) 0 - bnBatchMean2d n c h w d ci)
      ^ 2) / ((n * h * w : ℕ) : ℝ)

/-- Unbiased batch variance of channel `ci` (used for the running-variance
update in training mode). -/
noncomputable def bnBatchVarU2d (n c h w : ℕ) (d : List ℝ) (ci : ℕ) : ℝ :=
  (∑ bi ∈ Finset.range n, ∑ y ∈ Finset.range h, ∑ x ∈ Finset.range w,
    (d.getD (((bi * c + ci) * h + y) * w + x) 0 - bnBatchMean2d n c h w d ci)
      ^ 2) / ((n * h * w - 1 : ℕ) : ℝ)

/-- Batch mean of feature `j` over an `[n, dd]` data list (training-mode
`nn.BatchNorm1d`). -/
noncomputable def bnBatchMean1d (n dd : ℕ) (d : List ℝ) (j : ℕ) : ℝ :=
  (∑ bi ∈ Finset.range n, d.getD (bi * dd + j) 0) / ((n : ℕ) : ℝ)

/-- Biased batch variance of feature `j` over an `[n, dd]` data list. -/
noncomputable def bnBatchVar1d (n dd : ℕ) (d : List ℝ) (j : ℕ) : ℝ :=
  (∑ bi ∈ Finset.range n, (d.getD (bi * dd + j) 0 - bnBatchMean1d n dd d j)
    ^ 2) / ((n : ℕ) : ℝ)

/-- Unbiased batch variance of feature `j` over an `[n, dd]` data list. -/
noncomputable def bnBatchVarU1d (n dd : ℕ) (d : List ℝ) (j : ℕ) : ℝ :=
  (∑ bi ∈ Finset.range n, (d.getD (bi * dd + j) 0 - bnBatchMean1d n dd d j)
    ^ 2) / ((n - 1 : ℕ) : ℝ)

/-- Training-mode forward semantics of one layer, returning the layer after
the call together with the output.  Following PyTorch, the batch
normalization layers normalize by the batch statistics, require more than
one value per channel, and as a side effect overwrite their running
statistics buffers with `(1 - momentum) * old + momentum * batch`; the
running variance uses the unbiased batch variance.  All other layers behave
as in inference mode and are returned unchanged. -/
noncomputable def Layer.applyTrain : Layer → Tensor → Option (Layer × Tensor)
  | .batchNorm2d c ga be mu va, t =>
    match t.shape with
    | [n, c', h, w] =>
      if c' = c ∧ 1 < n * h * w then
        some (.batchNorm2d c ga be
          (build1 c fun ci => (1 - bnMomentum) * mu.getD ci 0 +
            bnMomentum * bnBatchMean2d n c' h w t.data ci)
          (build1 c fun ci => (1 - bnMomentum) * va.getD ci 0 +
            bnMomentum * bnBatchVarU2d n c' h w t.data ci),
          ⟨[n, c', h, w],
            rowData n (List.prod [c', h, w]) (List.prod [c', h, w])
              (fun row j =>
                let ci := j / (h * w)
                ga.getD ci 0 * ((row j - bnBatchMean2d n c' h w t.data ci) /
                  Real.sqrt (bnBatchVar2d n c' h w t.data ci + bnEps)) +
                  be.getD ci 0) t.data⟩)
      else none
    | _ => none
  | .batchNorm1d dd ga be mu va, t =>
    match t.shape with
    | [n, d'] =>
      if d' = dd ∧ 1 < n then
        some (.batchNorm1d dd ga be
          (build1 dd fun j => (1 - bnMomentum) * mu.getD j 0 +
            bnMomentum * bnBatchMean1d n d' t.data j)
          (build1 dd fun j => (1 - bnMomentum) * va.getD j 0 +
            bnMomentum * bnBatchVarU1d n d' t.data j),
          ⟨[n, d'],
            rowData n (List.prod [d']) (List.prod [d'])
              (fun row j =>
                ga.getD j 0 * ((row j - bnBatchMean1d n d' t.data j) /
                  Real.sqrt (bnBatchVar1d n d' t.data j + bnEps)) +
                  be.getD j 0) t.data⟩)
      else none
    | _ => none
  | l, t => (Layer.applyEval l t).map fun t' => (l, t')

/-- Training-mode `nn.Sequential`: threads the per-layer state. -/
noncomputable def runSeqTrain : List Layer → Tensor → Option (List Layer × Tensor)
  | [], t => some ([], t)
  | l :: ls, t =>
    (Layer.applyTrain l t).bind fun p =>
      (runSeqTrain ls p.2).map fun q => (p.1 :: q.1, q.2)

/-- `LatentStateEncoder.forward` in training mode, returning the
`initial_encoder` layer list as it stands after the call (the module state
that a forward pass can touch) together with the output. -/
noncomputable def LatentStateEncoder.forwardTrain (e : EncCfg) (x : Tensor) :
    Option (List Layer × Tensor) :=
  (sliceChannels e.z_amort x).bind fun x0 =>
  (runSeqTrain (initial_encoder e) x0).bind fun p =>
  (Layer.applyEval (.linear (e.num_filters * 4) e.latent_dim e.outP.w e.outP.b)
    p.2).bind fun z1 =>
  (Layer.applyEval .tanh z1).map fun z2 => (p.1, z2)

/-- Stateful reading of an inference-mode layer call: PyTorch `eval()` mode
reads but never writes the module state, so the layer is returned as is. -/
noncomputable def Layer.applyEvalSt (l : Layer) (t : Tensor) :
    Option (Layer × Tensor) :=
  (Layer.applyEval l t).map fun t' => (l, t')

/-- Stateful reading of an inference-mode `nn.Sequential` run. -/
noncomputable def runSeqEvalSt : List Layer → Tensor → Option (List Layer × Tensor)
  | [], t => some ([], t)
  | l :: ls, t =>
    (Layer.applyEvalSt l t).bind fun p =>
      (runSeqEvalSt ls p.2).map fun q => (p.1 :: q.1, q.2)

/-- Forgets the running-statistics buffers of a layer, keeping its learned
weights and structure. -/
def Layer.stripStats : Layer → Layer
  | .batchNorm2d c ga be _ _ => .batchNorm2d c ga be [] []
  | .batchNorm1d dd ga be _ _ => .batchNorm1d dd ga be [] []
  | l => l

/-- Data list of a dim-0 (row) rearrangement: entry `j` of output row `r` is
entry `j` of input row `si r`, rows having `rs` entries. -/
noncomputable def permRowsData (si : ℕ → ℕ) (n rs : ℕ) (d : List ℝ) : List ℝ :=
  build1 (n * rs) fun idx => d.getD (si (idx / rs) * rs + idx % rs) 0

/-- Rearrangement of the dim-0 slices of a tensor along `si`. -/
noncomputable def permRows (si : ℕ → ℕ) (t : Tensor) : Tensor :=
  match t.shape with
  | [] => t
  | n :: rest => ⟨n :: rest, permRowsData si n rest.prod t.data⟩

/-- Rearrangement of the dim-1 (time) slices of a tensor along `si`: entry
`(b, t1, j)` of the output is entry `(b, si t1, j)` of the input. -/
noncomputable def permAxis1 (si : ℕ → ℕ) (t : Tensor) : Tensor :=
  match t.shape with
  | s0 :: s1 :: rest =>
    ⟨s0 :: s1 :: rest,
      build1 (s0 * s1 * rest.prod) fun idx =>
        t.data.getD
          ((idx / (s1 * rest.prod) * s1 + si (idx / rest.prod % s1))
            * rest.prod + idx % rest.prod) 0⟩
  | _ => t

/-- Written from the spec's words for the refinement claims: one encoder
stage "strided convolution -> normalization -> leaky rectification" with the
5x5 kernel, stride 2 and padding 2 of the source. -/
def specConvStage (cin cout : ℕ) (cv : ConvP) (bn : BNP) :
    List Layer :=
  [.conv2d cin cout 5 2 2 cv.w cv.b,
   .batchNorm2d cout bn.ga bn.be bn.mu bn.va,
   .leakyReLU]

/-- Written from the spec's words: one decoder stage "deconvolution ->
normalization -> leaky rectification". -/
def specDeconvStage (cin cout k s p op : ℕ) (cv : ConvP)
    (bn : BNP) : List Layer :=
  [.convT2d cin cout k s p op cv.w cv.b,
   .batchNorm2d cout bn.ga bn.be bn.mu bn.va,
   .leakyReLU]

/-- Spatial output size of one encoder convolution stage (kernel 5, stride
2, padding 2) on input spatial size `h`. -/
def convStageSize (h : ℕ) : ℕ := (h + 2 * 2 - 5) / 2 + 1

/-- Zero-parameter convolution / linear layer (out-of-range parameter reads
yield 0). -/
def cp0 : ConvP := ⟨[], []⟩

/-- Zero-parameter batch-normalization layer. -/
def bnp0 : BNP := ⟨[], [], [], []⟩

/-- Concrete encoder with `z_amort = 1, num_filters = 1, num_channels = 1,
latent_dim = 1` and zero parameters, used to instantiate theorems. -/
def encW : EncCfg := ⟨1, 1, 1, 1, cp0, cp0, cp0, bnp0, bnp0, bnp0, cp0⟩

/-- Concrete `[1, 1, 28, 28]` input tensor for the encoder (all entries 0:
out-of-range reads of the empty data list yield 0). -/
def xEnc : Tensor := ⟨[1, 1, 28, 28], []⟩

/-- Concrete `[1, 2, 1, 1]` inputs agreeing on channel-group 0 and differing
on channel-group 1. -/
noncomputable def xSliceA : Tensor := ⟨[1, 2, 1, 1], [0, 0]⟩

/-- Second member of the pair: differs from `xSliceA` only at channel 1. -/
noncomputable def xSliceB : Tensor := ⟨[1, 2, 1, 1], [0, 1]⟩

/-- Concrete decoder with `batch_size = 1, generation_len = 1, dim = 32,
num_filters = 1, num_channels = 1, latent_dim = 1` and zero parameters. -/
def decW : DecCfg :=
  ⟨1, 1, 32, 1, 1, 1, cp0, bnp0, cp0, cp0, cp0, cp0, bnp0, bnp0, bnp0⟩

/-- Concrete `[1, 1, 1]` latent input tensor for the decoder. -/
def xDec : Tensor := ⟨[1, 1, 1], []⟩

/-- Decoder configuration with `batch_size = 1024` and `dim = 33`, for which
the final `view` can coincidentally succeed on a batch*time product that is
not divisible by `batch_size`. -/
def decC5 : DecCfg :=
  ⟨1024, 10, 33, 1, 1, 1, cp0, bnp0, cp0, cp0, cp0, cp0, bnp0, bnp0, bnp0⟩

/-- Input of shape `[16335, 1, 1]`: `16335 * 1` is not divisible by `1024`,
yet `16335 * 1024 = 1024 * (16335 / 1024) * 33 * 33` element counts match. -/
def xC5 : Tensor := ⟨[16335, 1, 1], []⟩

/-- Decoder configuration with `batch_size = 4` and `dim = 28` (the spec's
shape-contract scenario). -/
def decC5w : DecCfg :=
  ⟨4, 10, 28, 1, 1, 8, cp0, bnp0, cp0, cp0, cp0, cp0, bnp0, bnp0, bnp0⟩

/-- Input of shape `[2, 3, 8]`: batch*time = 6 is not divisible by 4. -/
def xC5w : Tensor := ⟨[2, 3, 8], []⟩

/-- Encoder whose first convolution has bias 1 (so its output channel has
batch mean 1) and whose first BatchNorm has running mean buffer `[0]`. -/
noncomputable def encC9 : EncCfg :=
  ⟨1, 1, 1, 1, ⟨[], [1]⟩, cp0, cp0, ⟨[], [], [0], []⟩, bnp0, bnp0, cp0⟩

/-- Concrete `[1, 1, 28, 28]` input for the training-mode encoder run. -/
def xC9 : Tensor := ⟨[1, 1, 28, 28], []⟩

/-- Computable shape-level mirror of `Layer.applyEval`: layer acceptance and
the output shape depend only on the input shape, never on the data. -/
def Layer.outShape : Layer → List ℕ → Option (List ℕ)
  | .conv2d cin cout k s p _ _, [n, c, h, w] =>
    if c = cin ∧ 0 < s ∧ k ≤ h + 2 * p ∧ k ≤ w + 2 * p then
      some [n, cout, (h + 2 * p - k) / s + 1, (w + 2 * p - k) / s + 1]
    else none
  | .batchNorm2d c _ _ _ _, [n, c', h, w] =>
    if c' = c then some [n, c', h, w] else none
  | .leakyReLU, n :: rest => some (n :: rest)
  | .avgPool2d k, [n, c, h, w] =>
    if 0 < k ∧ k ≤ h ∧ k ≤ w then
      some [n, c, (h - k) / k + 1, (w - k) / k + 1]
    else none
  | .flatten, n :: rest => if 0 < n then some [n, rest.prod] else none
  | .linear din dout _ _, [n, dd] =>
    if dd = din then some [n, dout] else none
  | .tanh, n :: rest => some (n :: rest)
  | .batchNorm1d dd _ _ _ _, [n, d'] =>
    if d' = dd then some [n, d'] else none
  | .unflatten s, [n, dd] =>
    if 0 < n ∧ 0 < dd ∧ s * s ∣ dd then some [n, dd / (s * s), s, s]
    else none
  | .convT2d cin cout k s p op _ _, [n, c, h, w] =>
    if c = cin ∧ 0 < s ∧ op < s ∧ 0 < h ∧ 0 < w ∧
        2 * p < (h - 1) * s + k + op ∧ 2 * p < (w - 1) * s + k + op then
      some [n, cout, (h - 1) * s + k + op - 2 * p,
        (w - 1) * s + k + op - 2 * p]
    else none
  | .sigmoid, n :: rest => some (n :: rest)
  | _, _ => none

/-- Shape-level mirror of `runSeqEval`. -/
def seqShape : List Layer → List ℕ → Option (List ℕ)
  | [], s => some s
  | l :: ls, s => (Layer.outShape l s).bind (seqShape ls)

/-- Shape-level mirror of `sliceChannels`. -/
def sliceShape (z : ℕ) : List ℕ → Option (List ℕ)
  | n :: c :: rest => some (n :: min z c :: rest)
  | _ => none

/-- Shape-level mirror of `flattenBT`. -/
def flattenBTShape : List ℕ → Option (List ℕ)
  | s0 :: s1 :: rest =>
    if 0 < s0 * s1 then some [s0 * s1, rest.prod] else none
  | _ => none

/-- Shape-level mirror of `finalView`. -/
def finalViewShape (bs dim : ℕ) : List ℕ → Option (List ℕ)
  | s0 :: rest =>
    if 0 < bs ∧ (s0 :: rest).prod = List.prod [bs, s0 / bs, dim, dim] then
      some [bs, s0 / bs, dim, dim]
    else none
  | _ => none

/-- Shape-level mirror of `LatentStateEncoder.forwardEval`. -/
def encForwardShape (e : EncCfg) (s : List ℕ) : Option (List ℕ) :=
  (sliceShape e.z_amort s).bind fun s0 =>
  (seqShape (initial_encoder e) s0).bind fun s1 =>
  (Layer.outShape (.linear (e.num_filters * 4) e.latent_dim e.outP.w e.outP.b)
    s1).bind fun s2 =>
  Layer.outShape .tanh s2

/-- Shape-level mirror of `EmissionDecoder.forwardEval`. -/
def decForwardShape (dc : DecCfg) (s : List ℕ) : Option (List ℕ) :=
  (flattenBTShape s).bind fun s0 =>
  (seqShape (decoder dc) s0).bind fun s1 =>
  finalViewShape dc.batch_size dc.dim s1

/-! ### General lemmas about the data-list builders -/

theorem length_build1 (n : ℕ) (f : ℕ → ℝ) : (build1 n f).length = n := by
  simp [build1]

theorem build1_getD {n i : ℕ} (f : ℕ → ℝ) (h : i < n) :
    (build1 n f).getD i 0 = f i := by
  have hl : i < (build1 n f).length := by simpa [length_build1] using h
  rw [List.getD_eq_getElem?_getD, List.getElem?_eq_getElem hl]
  simp [build1]

theorem build1_congr {n : ℕ} {f g : ℕ → ℝ} (h : ∀ i < n, f i = g i) :
    build1 n f = build1 n g := by
  unfold build1
  exact List.map_congr_left fun a ha => h a (List.mem_range.1 ha)

theorem mem_build1 {n : ℕ} {f : ℕ → ℝ} {v : ℝ} (h : v ∈ build1 n f) :
    ∃ i, i < n ∧ v = f i := by
  unfold build1 at h
  obtain ⟨i, hi, rfl⟩ := List.mem_map.1 h
  exact ⟨i, List.mem_range.1 hi, rfl⟩

theorem mulIdx_lt {r n i m : ℕ} (hr : r < n) (hi : i < m) :
    r * m + i < n * m := by
  calc r * m + i < r * m + m := by omega
  _ = (r + 1) * m := by ring
  _ ≤ n * m := Nat.mul_le_mul_right m hr

theorem divIdx {r i m : ℕ} (hi : i < m) : (r * m + i) / m = r := by
  rw [mul_comm r m, Nat.mul_add_div (by omega), Nat.div_eq_of_lt hi]
  omega

theorem modIdx {r i m : ℕ} (hi : i < m) : (r * m + i) % m = i := by
  rw [mul_comm r m, Nat.mul_add_mod]
  exact Nat.mod_eq_of_lt hi

/-! ### Row rearrangement commutes with every (dim-0 row-wise) layer -/

theorem permRowsData_getD {si : ℕ → ℕ} {n rs idx : ℕ} (d : List ℝ)
    (h : idx < n * rs) :
    (permRowsData si n rs d).getD idx 0 =
      d.getD (si (idx / rs) * rs + idx % rs) 0 := by
  unfold permRowsData
  rw [build1_getD _ h]

theorem rowData_getD {n rIn rOut idx : ℕ} (g : (ℕ → ℝ) → ℕ → ℝ)
    (d : List ℝ) (h : idx < n * rOut) :
    (rowData n rIn rOut g d).getD idx 0 =
      g (rowFn rIn d (idx / rOut)) (idx % rOut) := by
  unfold rowData
  rw [build1_getD _ h]

theorem rowFn_perm {si : ℕ → ℕ} {n rIn r : ℕ} (d : List ℝ) (hr : r < n) :
    rowFn rIn (permRowsData si n rIn d) r = rowFn rIn d (si r) := by
  funext i
  unfold rowFn
  by_cases hi : i < rIn
  · rw [if_pos hi, if_pos hi, permRowsData_getD d (mulIdx_lt hr hi),
      divIdx hi, modIdx hi]
  · rw [if_neg hi, if_neg hi]

theorem rowData_perm {si : ℕ → ℕ} {n rIn rOut : ℕ}
    (g : (ℕ → ℝ) → ℕ → ℝ) (d : List ℝ) (hsi : ∀ a < n, si a < n) :
    rowData n rIn rOut g (permRowsData si n rIn d) =
      permRowsData si n rOut (rowData n rIn rOut g d) := by
  rw [show rowData n rIn rOut g (permRowsData si n rIn d) =
      build1 (n * rOut) (fun idx => g (rowFn rIn (permRowsData si n rIn d)
        (idx / rOut)) (idx % rOut)) from rfl]
  rw [show permRowsData si n rOut (rowData n rIn rOut g d) =
      build1 (n * rOut) (fun idx => (rowData n rIn rOut g d).getD
        (si (idx / rOut) * rOut + idx % rOut) 0) from rfl]
  apply build1_congr
  intro idx hidx
  have hrOut : 0 < rOut := by
    rcases Nat.eq_zero_or_pos rOut with h0 | h0
    · subst h0; simp at hidx
    · exact h0
  have hr : idx / rOut < n := (Nat.div_lt_iff_lt_mul hrOut).2 hidx
  have hmod : idx % rOut < rOut := Nat.mod_lt _ hrOut
  rw [rowFn_perm d hr, rowData_getD g d (mulIdx_lt (hsi _ hr) hmod),
    divIdx hmod, modIdx hmod]

theorem map_permRows_some (si : ℕ → ℕ) (n : ℕ) (rest' : List ℕ)
    (X : List ℝ) :
    Option.map (permRows si) (some (⟨n :: rest', X⟩ : Tensor)) =
      some (⟨n :: rest', permRowsData si n rest'.prod X⟩ : Tensor) := by
  simp [permRows]

theorem applyEval_perm (l : Layer) (si : ℕ → ℕ) (n : ℕ) (rest : List ℕ)
    (d : List ℝ) (hsi : ∀ a < n, si a < n) :
    Layer.applyEval l (permRows si ⟨n :: rest, d⟩) =
      (Layer.applyEval l ⟨n :: rest, d⟩).map (permRows si) := by
  cases l with
  | conv2d cin cout k s p wt bs =>
    rcases rest with _ | ⟨c, _ | ⟨h, _ | ⟨w, _ | ⟨e, rest⟩⟩⟩⟩ <;>
      simp only [permRows, Layer.applyEval] <;> try rfl
    split_ifs with hg
    · rw [map_permRows_some]
      exact congrArg some (congrArg _ (rowData_perm _ d hsi))
    · rfl
  | batchNorm2d c ga be mu va =>
    rcases rest with _ | ⟨c', _ | ⟨h, _ | ⟨w, _ | ⟨e, rest⟩⟩⟩⟩ <;>
      simp only [permRows, Layer.applyEval] <;> try rfl
    split_ifs with hg
    · rw [map_permRows_some]
      exact congrArg some (congrArg _ (rowData_perm _ d hsi))
    · rfl
  | leakyReLU =>
    simp only [permRows, Layer.applyEval]
    rw [map_permRows_some]
    exact congrArg some (congrArg _ (rowData_perm _ d hsi))
  | avgPool2d k =>
    rcases rest with _ | ⟨c, _ | ⟨h, _ | ⟨w, _ | ⟨e, rest⟩⟩⟩⟩ <;>
      simp only [permRows, Layer.applyEval] <;> try rfl
    split_ifs with hg
    · rw [map_permRows_some]
      exact congrArg some (congrArg _ (rowData_perm _ d hsi))
    · rfl
  | flatten =>
    simp only [permRows, Layer.applyEval]
    split_ifs with hg
    · rw [map_permRows_some]
      exact congrArg some (congrArg _ (by simp [List.prod_singleton]))
    · rfl
  | linear din dout wt bs =>
    rcases rest with _ | ⟨dd, _ | ⟨e, rest⟩⟩ <;>
      simp only [permRows, Layer.applyEval] <;> try rfl
    split_ifs with hg
    · rw [map_permRows_some]
      exact congrArg some (congrArg _ (rowData_perm _ d hsi))
    · rfl
  | tanh =>
    simp only [permRows, Layer.applyEval]
    rw [map_permRows_some]
    exact congrArg some (congrArg _ (rowData_perm _ d hsi))
  | batchNorm1d dd ga be mu va =>
    rcases rest with _ | ⟨d', _ | ⟨e, rest⟩⟩ <;>
      simp only [permRows, Layer.applyEval] <;> try rfl
    split_ifs with hg
    · rw [map_permRows_some]
      exact congrArg some (congrArg _ (rowData_perm _ d hsi))
    · rfl
  | unflatten s =>
    rcases rest with _ | ⟨dd, _ | ⟨e, rest⟩⟩ <;>
      simp only [permRows, Layer.applyEval] <;> try rfl
    split_ifs with hg
    · rw [map_permRows_some]
      refine congrArg some (congrArg _ ?_)
      have hp : List.prod [dd / (s * s), s, s] = List.prod [dd] := by
        simp only [List.prod_cons, List.prod_nil]
        have h2 := Nat.div_mul_cancel hg.2.2
        calc dd / (s * s) * (s * (s * 1)) = dd / (s * s) * (s * s) := by ring
        _ = dd := h2
        _ = dd * 1 := (mul_one dd).symm
      rw [hp]
    · rfl
  | convT2d cin cout k s p op wt bs =>
    rcases rest with _ | ⟨c, _ | ⟨h, _ | ⟨w, _ | ⟨e, rest⟩⟩⟩⟩ <;>
      simp only [permRows, Layer.applyEval] <;> try rfl
    split_ifs with hg
    · rw [map_permRows_some]
      exact congrArg some (congrArg _ (rowData_perm _ d hsi))
    · rfl
  | sigmoid =>
    simp only [permRows, Layer.applyEval]
    rw [map_permRows_some]
    exact congrArg some (congrArg _ (rowData_perm _ d hsi))

theorem applyEval_cons_shape {l : Layer} {n : ℕ} {rest : List ℕ}
    {d : List ℝ} {t' : Tensor}
    (h : Layer.applyEval l ⟨n :: rest, d⟩ = some t') :
    ∃ rest' d', t' = ⟨n :: rest', d'⟩ := by
  cases l <;>
    rcases rest with _ | ⟨a, _ | ⟨b, _ | ⟨c, _ | ⟨e, rest⟩⟩⟩⟩ <;>
    simp only [Layer.applyEval] at h <;>
    (try split_ifs at h) <;>
    (try exact Option.noConfusion h) <;>
    (injection h with h; exact ⟨_, _, h.symm⟩)

theorem runSeqEval_perm (ls : List Layer) (si : ℕ → ℕ) :
    ∀ (n : ℕ) (rest : List ℕ) (d : List ℝ), (∀ a < n, si a < n) →
    runSeqEval ls (permRows si ⟨n :: rest, d⟩) =
      (runSeqEval ls ⟨n :: rest, d⟩).map (permRows si) := by
  induction ls with
  | nil => intro n rest d hsi; rfl
  | cons l ls ih =>
    intro n rest d hsi
    show (Layer.applyEval l (permRows si ⟨n :: rest, d⟩)).bind (runSeqEval ls)
      = ((Layer.applyEval l ⟨n :: rest, d⟩).bind (runSeqEval ls)).map
        (permRows si)
    rw [applyEval_perm l si n rest d hsi]
    cases happ : Layer.applyEval l ⟨n :: rest, d⟩ with
    | none => rfl
    | some t' =>
      obtain ⟨rest', d', rfl⟩ := applyEval_cons_shape happ
      simp only [Option.map_some', Option.some_bind]
      exact ih n rest' d' hsi

/-! ### The value semantics succeeds exactly when the shape semantics does -/

theorem applyEval_outShape (l : Layer) (s : List ℕ) (d : List ℝ) :
    ∃ d', Layer.applyEval l ⟨s, d⟩ =
      (Layer.outShape l s).map (fun s' => (⟨s', d'⟩ : Tensor)) := by
  cases l <;>
    rcases s with _ | ⟨n, _ | ⟨a, _ | ⟨b, _ | ⟨c, _ | ⟨e, s⟩⟩⟩⟩⟩ <;>
    simp only [Layer.applyEval, Layer.outShape, Option.map_none',
      Option.map_some'] <;>
    (try split_ifs) <;>
    (first | exact ⟨[], trivial⟩ | exact ⟨[], rfl⟩ | exact ⟨_, rfl⟩)

theorem runSeqEval_seqShape (ls : List Layer) :
    ∀ (s : List ℕ) (d : List ℝ),
    ∃ d', runSeqEval ls ⟨s, d⟩ =
      (seqShape ls s).map (fun s' => (⟨s', d'⟩ : Tensor)) := by
  induction ls with
  | nil => intro s d; exact ⟨d, rfl⟩
  | cons l ls ih =>
    intro s d
    obtain ⟨d1, h1⟩ := applyEval_outShape l s d
    cases hsl : Layer.outShape l s with
    | none =>
      refine ⟨d, ?_⟩
      show (Layer.applyEval l ⟨s, d⟩).bind (runSeqEval ls) =
        ((Layer.outShape l s).bind (seqShape ls)).map _
      rw [h1, hsl]
      rfl
    | some s1 =>
      obtain ⟨d2, h2⟩ := ih s1 d1
      refine ⟨d2, ?_⟩
      show (Layer.applyEval l ⟨s, d⟩).bind (runSeqEval ls) =
        ((Layer.outShape l s).bind (seqShape ls)).map _
      rw [h1, hsl]
      simp only [Option.map_some', Option.some_bind]
      exact h2

theorem sliceChannels_shape (z : ℕ) (s : List ℕ) (d : List ℝ) :
    ∃ d', sliceChannels z ⟨s, d⟩ =
      (sliceShape z s).map (fun s' => (⟨s', d'⟩ : Tensor)) := by
  rcases s with _ | ⟨n, _ | ⟨c, rest⟩⟩ <;>
    simp only [sliceChannels, sliceShape, Option.map_none',
      Option.map_some'] <;>
    (first | exact ⟨[], trivial⟩ | exact ⟨[], rfl⟩ | exact ⟨_, rfl⟩)

theorem flattenBT_shape (s : List ℕ) (d : List ℝ) :
    ∃ d', flattenBT ⟨s, d⟩ =
      (flattenBTShape s).map (fun s' => (⟨s', d'⟩ : Tensor)) := by
  rcases s with _ | ⟨s0, _ | ⟨s1, rest⟩⟩ <;>
    simp only [flattenBT, flattenBTShape, Option.map_none',
      Option.map_some'] <;>
    (try split_ifs) <;>
    (first | exact ⟨[], trivial⟩ | exact ⟨[], rfl⟩ | exact ⟨_, rfl⟩)

theorem finalView_shape (bs dim : ℕ) (s : List ℕ) (d : List ℝ) :
    ∃ d', finalView bs dim ⟨s, d⟩ =
      (finalViewShape bs dim s).map (fun s' => (⟨s', d'⟩ : Tensor)) := by
  rcases s with _ | ⟨s0, rest⟩ <;>
    simp only [finalView, finalViewShape, Option.map_none',
      Option.map_some'] <;>
    (try split_ifs) <;>
    (first | exact ⟨[], trivial⟩ | exact ⟨[], rfl⟩ | exact ⟨_, rfl⟩)

theorem encForward_shape (e : EncCfg) (x : Tensor) :
    ∃ d', LatentStateEncoder.forwardEval e x =
      (encForwardShape e x.shape).map (fun s' => (⟨s', d'⟩ : Tensor)) := by
  obtain ⟨s, d⟩ := x
  unfold LatentStateEncoder.forwardEval encForwardShape
  obtain ⟨d0, h0⟩ := sliceChannels_shape e.z_amort s d
  rw [h0]
  cases hs0 : sliceShape e.z_amort s with
  | none => exact ⟨d, rfl⟩
  | some s0 =>
    simp only [Option.map_some', Option.some_bind]
    obtain ⟨d1, h1⟩ := runSeqEval_seqShape (initial_encoder e) s0 d0
    rw [h1]
    cases hs1 : seqShape (initial_encoder e) s0 with
    | none => exact ⟨d, rfl⟩
    | some s1 =>
      simp only [Option.map_some', Option.some_bind]
      obtain ⟨d2, h2⟩ := applyEval_outShape
        (.linear (e.num_filters * 4) e.latent_dim e.outP.w e.outP.b) s1 d1
      rw [h2]
      cases hs2 : Layer.outShape
          (.linear (e.num_filters * 4) e.latent_dim e.outP.w e.outP.b) s1 with
      | none => exact ⟨d, rfl⟩
      | some s2 =>
        simp only [Option.map_some', Option.some_bind]
        obtain ⟨d3, h3⟩ := applyEval_outShape .tanh s2 d2
        rw [h3]
        exact ⟨d3, rfl⟩

theorem decForward_shape (dc : DecCfg) (zts : Tensor) :
    ∃ d', EmissionDecoder.forwardEval dc zts =
      (decForwardShape dc zts.shape).map (fun s' => (⟨s', d'⟩ : Tensor)) := by
  obtain ⟨s, d⟩ := zts
  unfold EmissionDecoder.forwardEval decForwardShape
  obtain ⟨d0, h0⟩ := flattenBT_shape s d
  rw [h0]
  cases hs0 : flattenBTShape s with
  | none => exact ⟨d, rfl⟩
  | some s0 =>
    simp only [Option.map_some', Option.some_bind]
    obtain ⟨d1, h1⟩ := runSeqEval_seqShape (decoder dc) s0 d0
    rw [h1]
    cases hs1 : seqShape (decoder dc) s0 with
    | none => exact ⟨d, rfl⟩
    | some s1 =>
      simp only [Option.map_some', Option.some_bind]
      obtain ⟨d2, h2⟩ := finalView_shape dc.batch_size dc.dim s1 d1
      rw [h2]
      exact ⟨d2, rfl⟩

/-! ### Bounds for the output activations -/

theorem sigmoid_bounds (x : ℝ) : 0 < sigmoid x ∧ sigmoid x < 1 := by
  unfold sigmoid
  have h : 0 < 1 + Real.exp (-x) := by positivity
  constructor
  · positivity
  · rw [div_lt_one h]
    linarith [Real.exp_pos (-x)]

theorem tanh_bounds (x : ℝ) : -1 < Real.tanh x ∧ Real.tanh x < 1 := by
  have hc := Real.cosh_pos x
  have h1 := Real.sinh_lt_cosh (x := x)
  have h2 := Real.sinh_lt_cosh (x := -x)
  rw [Real.sinh_neg, Real.cosh_neg] at h2
  rw [Real.tanh_eq_sinh_div_cosh]
  constructor
  · rw [lt_div_iff₀ hc]
    linarith
  · rw [div_lt_one hc]
    exact h1

/-! ### Characterization of a successful decoder-pipeline run -/

theorem decoder_run_shape {dc : DecCfg} {N M : ℕ} {d : List ℝ} {t' : Tensor}
    (h : runSeqEval (decoder dc) ⟨[N, M], d⟩ = some t') :
    M = dc.latent_dim ∧ 0 < N ∧ ∃ d0, t' = ⟨[N, 1, 32, 32],
      rowData N 1024 1024 (fun row j => CommonVAE.sigmoid (row j)) d0⟩ := by
  simp only [decoder, runSeqEval, Option.bind_eq_some, Option.some.injEq] at h
  obtain ⟨a1, h1, h⟩ := h
  norm_num [Layer.applyEval, Option.ite_none_right_eq_some,
    Option.some.injEq] at h1
  obtain ⟨hM, rfl⟩ := h1
  obtain ⟨a2, h2, h⟩ := h
  norm_num [Layer.applyEval, Option.ite_none_right_eq_some,
    Option.some.injEq] at h2
  obtain rfl := h2
  obtain ⟨a3, h3, h⟩ := h
  norm_num [Layer.applyEval, Option.some.injEq] at h3
  obtain rfl := h3
  obtain ⟨a4, h4, h⟩ := h
  norm_num [Layer.applyEval, Option.ite_none_right_eq_some,
    Option.some.injEq] at h4
  obtain ⟨hg4, rfl⟩ := h4
  obtain ⟨a5, h5, h⟩ := h
  norm_num [Layer.applyEval, Option.ite_none_right_eq_some,
    Option.some.injEq] at h5
  obtain rfl := h5
  obtain ⟨a6, h6, h⟩ := h
  norm_num [Layer.applyEval, Option.ite_none_right_eq_some,
    Option.some.injEq] at h6
  obtain rfl := h6
  obtain ⟨a7, h7, h⟩ := h
  norm_num [Layer.applyEval, Option.some.injEq] at h7
  obtain rfl := h7
  obtain ⟨a8, h8, h⟩ := h
  norm_num [Layer.applyEval, Option.ite_none_right_eq_some,
    Option.some.injEq] at h8
  obtain rfl := h8
  obtain ⟨a9, h9, h⟩ := h
  norm_num [Layer.applyEval, Option.ite_none_right_eq_some,
    Option.some.injEq] at h9
  obtain rfl := h9
  obtain ⟨a10, h10, h⟩ := h
  norm_num [Layer.applyEval, Option.some.injEq] at h10
  obtain rfl := h10
  obtain ⟨a11, h11, h⟩ := h
  norm_num [Layer.applyEval, Option.ite_none_right_eq_some,
    Option.some.injEq] at h11
  obtain rfl := h11
  obtain ⟨a12, h12, h⟩ := h
  norm_num [Layer.applyEval, Option.ite_none_right_eq_some,
    Option.some.injEq] at h12
  obtain rfl := h12
  obtain ⟨a13, h13, h⟩ := h
  norm_num [Layer.applyEval, Option.some.injEq] at h13
  obtain rfl := h13
  obtain ⟨a14, h14, h⟩ := h
  norm_num [Layer.applyEval, Option.ite_none_right_eq_some,
    Option.some.injEq] at h14
  obtain rfl := h14
  obtain ⟨a15, h15, h⟩ := h
  norm_num [Layer.applyEval, Option.some.injEq] at h15
  obtain rfl := h15
  obtain rfl := h
  exact ⟨hM, hg4.1, _, rfl⟩

theorem seqShape_cons (l : Layer) (ls : List Layer) (s : List ℕ) :
    seqShape (l :: ls) s = (Layer.outShape l s).bind (seqShape ls) := rfl

theorem seqShape_nil (s : List ℕ) : seqShape [] s = some s := rfl

theorem decoder_seqShape_eq (dc : DecCfg) (N : ℕ) (hN : 0 < N)
    (hnf : 0 < dc.num_filters) :
    seqShape (decoder dc) [N, dc.latent_dim] = some [N, 1, 32, 32] := by
  have h16 : (16 : ℕ) ∣ conv_dim dc := ⟨dc.num_filters * 4, by
    unfold conv_dim; ring⟩
  have hcd : 0 < conv_dim dc := by
    unfold conv_dim; positivity
  have e1 : Layer.outShape
      (.linear dc.latent_dim (conv_dim dc) dc.lin.w dc.lin.b)
      [N, dc.latent_dim] = some [N, conv_dim dc] := by
    norm_num [Layer.outShape]
  have e2 : Layer.outShape
      (.batchNorm1d (conv_dim dc) dc.b0.ga dc.b0.be dc.b0.mu dc.b0.va)
      [N, conv_dim dc] = some [N, conv_dim dc] := by
    norm_num [Layer.outShape]
  have e3 : Layer.outShape .leakyReLU [N, conv_dim dc] =
      some [N, conv_dim dc] := by
    norm_num [Layer.outShape]
  have e4 : Layer.outShape (.unflatten 4) [N, conv_dim dc] =
      some [N, conv_dim dc / 16, 4, 4] := by
    norm_num [Layer.outShape, hN, hcd, h16]
  have e5 : Layer.outShape
      (.convT2d (conv_dim dc / 16) (dc.num_filters * 4) 4 1 0 0
        dc.d1.w dc.d1.b) [N, conv_dim dc / 16, 4, 4] =
      some [N, dc.num_filters * 4, 7, 7] := by
    norm_num [Layer.outShape]
  have e6 : Layer.outShape
      (.batchNorm2d (dc.num_filters * 4) dc.m1.ga dc.m1.be dc.m1.mu dc.m1.va)
      [N, dc.num_filters * 4, 7, 7] = some [N, dc.num_filters * 4, 7, 7] := by
    norm_num [Layer.outShape]
  have e7 : Layer.outShape .leakyReLU [N, dc.num_filters * 4, 7, 7] =
      some [N, dc.num_filters * 4, 7, 7] := by
    norm_num [Layer.outShape]
  have e8 : Layer.outShape
      (.convT2d (dc.num_filters * 4) (dc.num_filters * 2) 5 2 1 0
        dc.d2.w dc.d2.b) [N, dc.num_filters * 4, 7, 7] =
      some [N, dc.num_filters * 2, 15, 15] := by
    norm_num [Layer.outShape]
  have e9 : Layer.outShape
      (.batchNorm2d (dc.num_filters * 2) dc.m2.ga dc.m2.be dc.m2.mu dc.m2.va)
      [N, dc.num_filters * 2, 15, 15] =
      some [N, dc.num_filters * 2, 15, 15] := by
    norm_num [Layer.outShape]
  have e10 : Layer.outShape .leakyReLU [N, dc.num_filters * 2, 15, 15] =
      some [N, dc.num_filters * 2, 15, 15] := by
    norm_num [Layer.outShape]
  have e11 : Layer.outShape
      (.convT2d (dc.num_filters * 2) dc.num_filters 5 2 1 1 dc.d3.w dc.d3.b)
      [N, dc.num_filters * 2, 15, 15] = some [N, dc.num_filters, 32, 32] := by
    norm_num [Layer.outShape]
  have e12 : Layer.outShape
      (.batchNorm2d dc.num_filters dc.m3.ga dc.m3.be dc.m3.mu dc.m3.va)
      [N, dc.num_filters, 32, 32] = some [N, dc.num_filters, 32, 32] := by
    norm_num [Layer.outShape]
  have e13 : Layer.outShape .leakyReLU [N, dc.num_filters, 32, 32] =
      some [N, dc.num_filters, 32, 32] := by
    norm_num [Layer.outShape]
  have e14 : Layer.outShape
      (.convT2d dc.num_filters 1 5 1 2 0 dc.d4.w dc.d4.b)
      [N, dc.num_filters, 32, 32] = some [N, 1, 32, 32] := by
    norm_num [Layer.outShape]
  have e15 : Layer.outShape .sigmoid [N, 1, 32, 32] =
      some [N, 1, 32, 32] := by
    norm_num [Layer.outShape]
  show seqShape
    [.linear dc.latent_dim (conv_dim dc) dc.lin.w dc.lin.b,
     .batchNorm1d (conv_dim dc) dc.b0.ga dc.b0.be dc.b0.mu dc.b0.va,
     .leakyReLU,
     .unflatten 4,
     .convT2d (conv_dim dc / 16) (dc.num_filters * 4) 4 1 0 0
       dc.d1.w dc.d1.b,
     .batchNorm2d (dc.num_filters * 4) dc.m1.ga dc.m1.be dc.m1.mu dc.m1.va,
     .leakyReLU,
     .convT2d (dc.num_filters * 4) (dc.num_filters * 2) 5 2 1 0
       dc.d2.w dc.d2.b,
     .batchNorm2d (dc.num_filters * 2) dc.m2.ga dc.m2.be dc.m2.mu dc.m2.va,
     .leakyReLU,
     .convT2d (dc.num_filters * 2) dc.num_filters 5 2 1 1 dc.d3.w dc.d3.b,
     .batchNorm2d dc.num_filters dc.m3.ga dc.m3.be dc.m3.mu dc.m3.va,
     .leakyReLU,
     .convT2d dc.num_filters 1 5 1 2 0 dc.d4.w dc.d4.b,
     .sigmoid] [N, dc.latent_dim] = some [N, 1, 32, 32]
  rw [seqShape_cons, e1, Option.some_bind, seqShape_cons, e2,
    Option.some_bind, seqShape_cons, e3, Option.some_bind, seqShape_cons, e4,
    Option.some_bind, seqShape_cons, e5, Option.some_bind, seqShape_cons, e6,
    Option.some_bind, seqShape_cons, e7, Option.some_bind, seqShape_cons, e8,
    Option.some_bind, seqShape_cons, e9, Option.some_bind, seqShape_cons,
    e10, Option.some_bind, seqShape_cons, e11, Option.some_bind,
    seqShape_cons, e12, Option.some_bind, seqShape_cons, e13,
    Option.some_bind, seqShape_cons, e14, Option.some_bind, seqShape_cons,
    e15, Option.some_bind, seqShape_nil]

theorem decoder_run_some (dc : DecCfg) (N : ℕ) (d : List ℝ) (hN : 0 < N)
    (hnf : 0 < dc.num_filters) :
    ∃ d0, runSeqEval (decoder dc) ⟨[N, dc.latent_dim], d⟩ =
      some ⟨[N, 1, 32, 32],
        rowData N 1024 1024 (fun row j => CommonVAE.sigmoid (row j)) d0⟩ := by
  obtain ⟨d1, h1⟩ := runSeqEval_seqShape (decoder dc) [N, dc.latent_dim] d
  rw [decoder_seqShape_eq dc N hN hnf, Option.map_some'] at h1
  obtain ⟨-, -, d0, hform⟩ := decoder_run_shape h1
  exact ⟨d0, h1.trans (congrArg some hform)⟩

/-! ### Characterization of a successful encoder run -/

theorem runSeqEval_head {ls : List Layer} :
    ∀ {n : ℕ} {rest : List ℕ} {d : List ℝ} {t' : Tensor},
    runSeqEval ls ⟨n :: rest, d⟩ = some t' → ∃ rest' d', t' = ⟨n :: rest', d'⟩ := by
  induction ls with
  | nil =>
    intro n rest d t' h
    rw [runSeqEval, Option.some.injEq] at h
    exact ⟨rest, d, h.symm⟩
  | cons l ls ih =>
    intro n rest d t' h
    rw [runSeqEval, Option.bind_eq_some] at h
    obtain ⟨a, ha, h⟩ := h
    obtain ⟨rest1, d1, rfl⟩ := applyEval_cons_shape ha
    exact ih h

theorem encoder_run_shape {e : EncCfg} {x : Tensor} {t : Tensor}
    (h : LatentStateEncoder.forwardEval e x = some t) :
    ∃ n c rest, x.shape = n :: c :: rest ∧ ∃ d0,
      t = ⟨[n, e.latent_dim], rowData n e.latent_dim e.latent_dim
        (fun row j => Real.tanh (row j)) d0⟩ := by
  obtain ⟨s, d⟩ := x
  simp only [LatentStateEncoder.forwardEval, Option.bind_eq_some] at h
  obtain ⟨x0, hs, h⟩ := h
  rcases s with _ | ⟨n, _ | ⟨c, rest⟩⟩
  · exact Option.noConfusion hs
  · exact Option.noConfusion hs
  simp only [sliceChannels, Option.some.injEq] at hs
  obtain rfl := hs
  obtain ⟨z0, hr, h⟩ := h
  obtain ⟨rest2, d2, rfl⟩ := runSeqEval_head hr
  obtain ⟨z1, hl, h⟩ := h
  rcases rest2 with _ | ⟨dd, _ | ⟨e2, rest2⟩⟩
  · exact Option.noConfusion hl
  · norm_num [Layer.applyEval, Option.ite_none_right_eq_some,
      Option.some.injEq] at hl
    obtain ⟨hdd, rfl⟩ := hl
    norm_num [Layer.applyEval, Option.some.injEq] at h
    exact ⟨n, c, rest, rfl, _, h.symm⟩
  · exact Option.noConfusion hl

/-- Shape and final-activation form of any successful decoder forward
pass: the output is the final `view` of the sigmoid layer's output. -/
theorem decForward_some_form {dc : DecCfg} {zts t : Tensor}
    (h : EmissionDecoder.forwardEval dc zts = some t) :
    t.shape = [dc.batch_size,
      zts.shape.headD 0 * zts.shape.tail.headD 0 / dc.batch_size,
      dc.dim, dc.dim] ∧
    ∃ d0, t.data = rowData (zts.shape.headD 0 * zts.shape.tail.headD 0)
      1024 1024 (fun row j => CommonVAE.sigmoid (row j)) d0 := by
  obtain ⟨s, d⟩ := zts
  simp only [EmissionDecoder.forwardEval, Option.bind_eq_some] at h
  obtain ⟨z0, h0, h⟩ := h
  rcases s with _ | ⟨s0, _ | ⟨s1, rest⟩⟩
  · exact Option.noConfusion h0
  · exact Option.noConfusion h0
  norm_num [flattenBT, Option.ite_none_right_eq_some, Option.some.injEq] at h0
  obtain ⟨hpos, rfl⟩ := h0
  obtain ⟨xr, h1, h⟩ := h
  obtain ⟨hM, hN, d0, rfl⟩ := decoder_run_shape h1
  norm_num [finalView, Option.ite_none_right_eq_some, Option.some.injEq] at h
  obtain ⟨hc, rfl⟩ := h
  exact ⟨by simp, ⟨d0, by simp⟩⟩

/-! ### Claim theorems -/

/-- C1: for every input tensor accepted by `LatentStateEncoder.forward`,
the output has shape `[batch, latent_dim]` and every output value lies
strictly within the open interval `(-1, 1)`, the final activation being
`tanh` applied after the linear projection to `latent_dim`. -/
theorem C1_encoder_output_bounded (e : EncCfg) (x t : Tensor)
    (h : LatentStateEncoder.forwardEval e x = some t) :
    t.shape = [x.shape.headD 0, e.latent_dim] ∧
      ∀ v ∈ t.data, -1 < v ∧ v < 1 := by
  obtain ⟨n, c, rest, hx, d0, rfl⟩ := encoder_run_shape h
  refine ⟨by simp [hx], fun v hv => ?_⟩
  obtain ⟨i, hi, rfl⟩ := mem_build1 (by simpa [rowData] using hv)
  exact tanh_bounds _

/-- Witness for C1 at a concrete accepted input: the zero `[1, 1, 28, 28]`
sequence fed to the `z_amort = num_filters = latent_dim = 1` encoder. -/
theorem C1_witness :
    ∃ t, LatentStateEncoder.forwardEval encW xEnc = some t ∧
      (t.shape = [xEnc.shape.headD 0, encW.latent_dim] ∧
        ∀ v ∈ t.data, -1 < v ∧ v < 1) :=
  ⟨_, rfl, C1_encoder_output_bounded encW xEnc _ rfl⟩

/-- C2: for every input tensor accepted by `EmissionDecoder.forward`, the
output has shape `[batch_size, time, dim, dim]` — `batch_size` and `dim`
fixed at construction, the time dimension inferred from the input as
`(shape[0] * shape[1]) / batch_size` — and every output value lies within
`[0, 1]`, the final activation being a sigmoid. -/
theorem C2_decoder_output_bounded (dc : DecCfg) (zts t : Tensor)
    (h : EmissionDecoder.forwardEval dc zts = some t) :
    t.shape = [dc.batch_size,
      zts.shape.headD 0 * zts.shape.tail.headD 0 / dc.batch_size,
      dc.dim, dc.dim] ∧
      ∀ v ∈ t.data, 0 ≤ v ∧ v ≤ 1 := by
  obtain ⟨hshape, d0, hdata⟩ := decForward_some_form h
  refine ⟨hshape, fun v hv => ?_⟩
  rw [hdata] at hv
  obtain ⟨i, hi, rfl⟩ := mem_build1 (by simpa [rowData] using hv)
  have hb := sigmoid_bounds (rowFn 1024 d0 (i / 1024) (i % 1024))
  exact ⟨le_of_lt hb.1, le_of_lt hb.2⟩

/-- Witness for C2 at a concrete accepted input: a `[1, 1, 1]` latent batch
fed to the `batch_size = 1, dim = 32, num_filters = 1, latent_dim = 1`
decoder. -/
theorem C2_witness :
    ∃ t, EmissionDecoder.forwardEval decW xDec = some t ∧
      (t.shape = [decW.batch_size,
        xDec.shape.headD 0 * xDec.shape.tail.headD 0 / decW.batch_size,
        decW.dim, decW.dim] ∧ ∀ v ∈ t.data, 0 ≤ v ∧ v ≤ 1) :=
  ⟨_, rfl, C2_decoder_output_bounded decW xDec _ rfl⟩

/-- C5 (amended): if the input's `batch*time` product is not divisible by
the constructed `batch_size` and the constructed `dim` is at most 32 (the
decoder's fixed spatial output size is 32x32, so the element counts can
never coincide), `EmissionDecoder.forward` errors; for `dim > 32` the final
reshape can coincidentally succeed, see the counterexample. -/
theorem C5_nondivisible_errors (dc : DecCfg) (zts : Tensor)
    (hdim : dc.dim ≤ 32)
    (hdvd : ¬ dc.batch_size ∣ zts.shape.headD 0 * zts.shape.tail.headD 0) :
    EmissionDecoder.forwardEval dc zts = none := by
  rcases hfwd : EmissionDecoder.forwardEval dc zts with _ | t
  · rfl
  exfalso
  obtain ⟨s, d⟩ := zts
  simp only [EmissionDecoder.forwardEval, Option.bind_eq_some] at hfwd
  obtain ⟨z0, h0, hfwd⟩ := hfwd
  rcases s with _ | ⟨s0, _ | ⟨s1, rest⟩⟩
  · exact Option.noConfusion h0
  · exact Option.noConfusion h0
  norm_num [flattenBT, Option.ite_none_right_eq_some, Option.some.injEq] at h0
  obtain ⟨hpos, rfl⟩ := h0
  obtain ⟨xr, h1, hfwd⟩ := hfwd
  obtain ⟨hM, hN, d0, rfl⟩ := decoder_run_shape h1
  norm_num [finalView, Option.ite_none_right_eq_some,
    Option.some.injEq] at hfwd
  obtain ⟨⟨hbs, hcount⟩, -⟩ := hfwd
  simp only [Tensor.shape, List.headD, List.tail] at hdvd
  have hlt : dc.batch_size * ((s0 * s1) / dc.batch_size) < s0 * s1 := by
    rcases Nat.lt_or_ge (dc.batch_size * ((s0 * s1) / dc.batch_size))
      (s0 * s1) with hl | hg
    · exact hl
    · exact absurd ⟨(s0 * s1) / dc.batch_size,
        (Nat.le_antisymm (Nat.mul_div_le _ _) hg).symm⟩ hdvd
  have h2 : dc.dim * dc.dim ≤ 1024 := by
    calc dc.dim * dc.dim ≤ 32 * 32 := Nat.mul_le_mul hdim hdim
    _ = 1024 := by norm_num
  have h3 : dc.batch_size * ((s0 * s1) / dc.batch_size * (dc.dim * dc.dim))
      ≤ (s0 * s1 - 1) * 1024 := by
    calc dc.batch_size * ((s0 * s1) / dc.batch_size * (dc.dim * dc.dim))
        = (dc.batch_size * ((s0 * s1) / dc.batch_size)) * (dc.dim * dc.dim) :=
          by ring
    _ ≤ (s0 * s1 - 1) * (dc.dim * dc.dim) :=
          Nat.mul_le_mul_right _ (by omega)
    _ ≤ (s0 * s1 - 1) * 1024 := Nat.mul_le_mul_left _ h2
  have h4 : s0 * s1 * 1024 ≤ (s0 * s1 - 1) * 1024 := by
    calc s0 * s1 * 1024
        = dc.batch_size * ((s0 * s1) / dc.batch_size * (dc.dim * dc.dim)) :=
          by linarith [hcount]
    _ ≤ (s0 * s1 - 1) * 1024 := h3
  omega

/-- Witness for the amended C5: `batch_size = 4`, `dim = 28`, input of shape
`[2, 3, 8]` (`2 * 3` not divisible by 4): the forward pass errors. -/
theorem C5_witness :
    decC5w.dim ≤ 32 ∧
    ¬ decC5w.batch_size ∣ xC5w.shape.headD 0 * xC5w.shape.tail.headD 0 ∧
    EmissionDecoder.forwardEval decC5w xC5w = none :=
  ⟨by decide, by decide,
    C5_nondivisible_errors decC5w xC5w (by decide) (by decide)⟩

/-- Counterexample to C5 as stated: with `batch_size = 1024` and `dim = 33`
(and `num_filters = latent_dim = 1`), the `[16335, 1, 1]` input has a
batch*time product `16335` that is NOT divisible by `1024`, yet the forward
pass succeeds — `16335 * 32 * 32 = 1024 * (16335 / 1024) * 33 * 33`, so the
final `view`'s element counts coincide and no error is raised. -/
theorem C5_counterexample :
    ¬ decC5.batch_size ∣ xC5.shape.headD 0 * xC5.shape.tail.headD 0 ∧
    EmissionDecoder.forwardEval decC5 xC5 ≠ none := by
  refine ⟨by decide, ?_⟩
  have h : ∃ t, EmissionDecoder.forwardEval decC5 xC5 = some t := ⟨_, rfl⟩
  obtain ⟨t, ht⟩ := h
  simp [ht]

/-- C8: the decoder performs no runtime validation that the deconvolution
stack's spatial output (always 32x32) equals `dim x dim`: on an input that
reaches the final reshape, the forward pass succeeds exactly when the
element counts `(batch*time) * 32 * 32` and
`batch_size * ((batch*time) / batch_size) * dim * dim` match, and on
success the result is the reshape to
`[batch_size, (batch*time) / batch_size, dim, dim]`. -/
theorem C8_reshape_succeeds_iff (dc : DecCfg) (s0 s1 : ℕ) (rest : List ℕ)
    (d : List ℝ) (hpos : 0 < s0 * s1) (hld : rest.prod = dc.latent_dim)
    (hnf : 0 < dc.num_filters) (hbs : 0 < dc.batch_size) :
    ((EmissionDecoder.forwardEval dc ⟨s0 :: s1 :: rest, d⟩).isSome ↔
      s0 * s1 * (32 * 32) = dc.batch_size *
        (s0 * s1 / dc.batch_size * (dc.dim * dc.dim))) ∧
    ∀ t, EmissionDecoder.forwardEval dc ⟨s0 :: s1 :: rest, d⟩ = some t →
      t.shape = [dc.batch_size, s0 * s1 / dc.batch_size, dc.dim, dc.dim] := by
  obtain ⟨d', hfs⟩ := decForward_shape dc ⟨s0 :: s1 :: rest, d⟩
  have hf : flattenBTShape (s0 :: s1 :: rest) = some [s0 * s1, rest.prod] :=
    by norm_num [flattenBTShape, hpos]
  have hd : decForwardShape dc (s0 :: s1 :: rest) =
      finalViewShape dc.batch_size dc.dim [s0 * s1, 1, 32, 32] := by
    unfold decForwardShape
    rw [hf, Option.some_bind, hld, decoder_seqShape_eq dc _ hpos hnf,
      Option.some_bind]
  rw [hd] at hfs
  by_cases hc : s0 * s1 * (32 * 32) = dc.batch_size *
      (s0 * s1 / dc.batch_size * (dc.dim * dc.dim))
  · have hv : finalViewShape dc.batch_size dc.dim [s0 * s1, 1, 32, 32] =
        some [dc.batch_size, s0 * s1 / dc.batch_size, dc.dim, dc.dim] := by
      norm_num [finalViewShape, hbs]
      intro hcc
      exact absurd (by linarith [hc]) hcc
    rw [hv, Option.map_some'] at hfs
    constructor
    · simp [hfs, hc]
    · intro t ht
      rw [ht, Option.some.injEq] at hfs
      simp [hfs]
  · have hv : finalViewShape dc.batch_size dc.dim [s0 * s1, 1, 32, 32] =
        none := by
      norm_num [finalViewShape, hbs]
      intro hcc
      exact absurd (by linarith [hcc]) hc
    rw [hv, Option.map_none'] at hfs
    rw [hfs]
    constructor
    · simp [hc]
    · intro t ht
      exact Option.noConfusion ht

/-- Witness for C8 at the concrete decoder `decW` (`batch_size = 1`,
`dim = 32`) on a `[1, 1, [1]]`-shaped input. -/
theorem C8_witness :
    (0 : ℕ) < 1 * 1 ∧ List.prod [1] = decW.latent_dim ∧
    0 < decW.num_filters ∧ 0 < decW.batch_size ∧
    (((EmissionDecoder.forwardEval decW ⟨1 :: 1 :: [1], []⟩).isSome ↔
      1 * 1 * (32 * 32) = decW.batch_size *
        (1 * 1 / decW.batch_size * (decW.dim * decW.dim))) ∧
    ∀ t, EmissionDecoder.forwardEval decW ⟨1 :: 1 :: [1], []⟩ = some t →
      t.shape = [decW.batch_size, 1 * 1 / decW.batch_size,
        decW.dim, decW.dim]) :=
  ⟨by decide, by decide, by decide, by decide,
    C8_reshape_succeeds_iff decW 1 1 [1] [] (by decide) (by decide)
      (by decide) (by decide)⟩

/-- C10: the `num_channels` construction parameter of `EmissionDecoder` is
stored but never used — forward results are independent of it —, the final
deconvolution hard-codes a single output channel, and the output reshape
yields the 4-dimensional `[batch_size, time, dim, dim]` with no channel
axis. -/
theorem C10_single_channel (dc : DecCfg) (nc' : ℕ) (zts t : Tensor)
    (h : EmissionDecoder.forwardEval dc zts = some t) :
    EmissionDecoder.forwardEval { dc with num_channels := nc' } zts =
      EmissionDecoder.forwardEval dc zts ∧
    (decoder dc)[13]? =
      some (.convT2d dc.num_filters 1 5 1 2 0 dc.d4.w dc.d4.b) ∧
    t.shape.length = 4 ∧
    t.shape = [dc.batch_size,
      zts.shape.headD 0 * zts.shape.tail.headD 0 / dc.batch_size,
      dc.dim, dc.dim] := by
  obtain ⟨hshape, -⟩ := decForward_some_form h
  exact ⟨rfl, rfl, by rw [hshape]; rfl, hshape⟩

/-- Witness for C10 at the concrete decoder `decW` and input `xDec`. -/
theorem C10_witness :
    ∃ t, EmissionDecoder.forwardEval decW xDec = some t ∧
      (EmissionDecoder.forwardEval { decW with num_channels := 7 } xDec =
        EmissionDecoder.forwardEval decW xDec ∧
      (decoder decW)[13]? =
        some (.convT2d decW.num_filters 1 5 1 2 0 decW.d4.w decW.d4.b) ∧
      t.shape.length = 4 ∧
      t.shape = [decW.batch_size,
        xDec.shape.headD 0 * xDec.shape.tail.headD 0 / decW.batch_size,
        decW.dim, decW.dim]) :=
  ⟨_, rfl, C10_single_channel decW 7 xDec _ rfl⟩

/-- C3: two encoder inputs of identical shape that agree on the first
`z_amort` channel-groups (entries with second index below `z_amort`,
`sp` ranging over the flattened trailing spatial index) produce identical
`LatentStateEncoder.forward` results, whatever the data beyond index
`z_amort`: only the first `z_amort` channel-groups are read. -/
theorem C3_slice_determinism (e : EncCfg) (n c : ℕ) (rest : List ℕ)
    (dA dB : List ℝ) (hzc : e.z_amort ≤ c)
    (hagree : ∀ bi ci sp, bi < n → ci < e.z_amort → sp < rest.prod →
      dA.getD ((bi * c + ci) * rest.prod + sp) 0 =
        dB.getD ((bi * c + ci) * rest.prod + sp) 0) :
    LatentStateEncoder.forwardEval e ⟨n :: c :: rest, dA⟩ =
      LatentStateEncoder.forwardEval e ⟨n :: c :: rest, dB⟩ := by
  have hs : sliceChannels e.z_amort ⟨n :: c :: rest, dA⟩ =
      sliceChannels e.z_amort ⟨n :: c :: rest, dB⟩ := by
    simp only [sliceChannels, Nat.min_eq_left hzc, Option.some.injEq]
    refine congrArg _ (build1_congr ?_)
    intro idx hidx
    have hrp : 0 < rest.prod := by
      rcases Nat.eq_zero_or_pos rest.prod with h0 | h0
      · rw [h0] at hidx; simp at hidx
      · exact h0
    have hz : 0 < e.z_amort * rest.prod := by
      rcases Nat.eq_zero_or_pos (e.z_amort * rest.prod) with h0 | h0
      · rw [h0] at hidx; simp at hidx
      · exact h0
    exact hagree (idx / (e.z_amort * rest.prod))
      (idx % (e.z_amort * rest.prod) / rest.prod)
      (idx % (e.z_amort * rest.prod) % rest.prod)
      ((Nat.div_lt_iff_lt_mul hz).2 hidx)
      ((Nat.div_lt_iff_lt_mul hrp).2 (by
        have := Nat.mod_lt idx hz
        omega))
      (Nat.mod_lt _ hrp)
  unfold LatentStateEncoder.forwardEval
  rw [hs]

/-- Witness for C3: `[1, 2, 1, 1]` inputs `[0, 0]` and `[0, 1]` differing
only at channel-group 1, encoder with `z_amort = 1`: identical results. -/
theorem C3_witness :
    encW.z_amort ≤ 2 ∧
    LatentStateEncoder.forwardEval encW xSliceA =
      LatentStateEncoder.forwardEval encW xSliceB := by
  refine ⟨by decide, C3_slice_determinism encW 1 2 [1, 1] [0, 0] [0, 1]
    (by decide) ?_⟩
  intro bi ci sp hbi hci hsp
  have hz : encW.z_amort = 1 := rfl
  have hp : List.prod [1, 1] = 1 := rfl
  rw [hz] at hci
  rw [hp] at hsp
  have h1 : bi = 0 := by omega
  have h2 : ci = 0 := by omega
  have h3 : sp = 0 := by omega
  subst h1
  subst h2
  subst h3
  norm_num

/-- Core index identity: a dim-1 rearrangement, seen on the flattened
`[B*T, rp]` layout, is the block-wise row rearrangement
`r \mapsto (r / T) * T + si (r % T)`. -/
theorem permAxis1_data_eq (si : ℕ → ℕ) (B T rp : ℕ) (d : List ℝ) :
    build1 (B * T * rp) (fun idx =>
      d.getD ((idx / (T * rp) * T + si (idx / rp % T)) * rp + idx % rp) 0) =
      permRowsData (fun r => r / T * T + si (r % T)) (B * T) rp d := by
  unfold permRowsData
  apply build1_congr
  intro idx hidx
  have hdd : idx / (T * rp) = idx / rp / T := by
    rw [Nat.div_div_eq_div_mul, mul_comm]
  rw [hdd]

theorem flattenBT_permAxis1 (si : ℕ → ℕ) (B T L : ℕ) (d : List ℝ) :
    flattenBT (permAxis1 si ⟨[B, T, L], d⟩) =
      (flattenBT ⟨[B, T, L], d⟩).map
        (permRows (fun r => r / T * T + si (r % T))) := by
  simp only [permAxis1, flattenBT]
  split_ifs with hpos
  · rw [Option.map_some']
    simp only [permRows]
    refine congrArg some ?_
    refine congrArg _ ?_
    have hp : List.prod [List.prod [L]] = List.prod [L] := by
      simp [List.prod_cons, List.prod_nil]
    rw [hp]
    exact permAxis1_data_eq si B T (List.prod [L]) d
  · rfl

theorem finalView_permRows (si : ℕ → ℕ) (bs dim T : ℕ) (dr : List ℝ)
    (hbs : 0 < bs) :
    finalView bs dim (permRows (fun r => r / T * T + si (r % T))
      ⟨[bs * T, 1, 32, 32], dr⟩) =
    (finalView bs dim ⟨[bs * T, 1, 32, 32], dr⟩).map (permAxis1 si) := by
  have hdivT : bs * T / bs = T := Nat.mul_div_cancel_left T hbs
  simp only [permRows, finalView, hdivT]
  split_ifs with hg
  · rw [Option.map_some']
    simp only [permAxis1]
    refine congrArg some (congrArg _ ?_)
    rcases Nat.eq_zero_or_pos T with hT0 | hT
    · subst hT0
      simp [permRowsData, build1]
    · have hcnt : dim * (dim * 1) = 1 * (32 * (32 * 1)) := by
        have h2 := hg.2
        simp only [List.prod_cons, List.prod_nil] at h2
        have h3 : bs * (T * (dim * (dim * 1))) =
            bs * (T * (1 * (32 * (32 * 1)))) := by
          calc bs * (T * (dim * (dim * 1)))
              = bs * (T * (dim * (dim * 1))) := rfl
          _ = bs * (T * (1 * (32 * (32 * 1)))) := by
              rw [← h2]; ring
        have h4 := Nat.eq_of_mul_eq_mul_left hbs h3
        exact Nat.eq_of_mul_eq_mul_left hT h4
      simp only [List.prod_cons, List.prod_nil]
      rw [hcnt]
      exact (permAxis1_data_eq si bs T (1 * (32 * (32 * 1))) dr).symm
  · rfl

/-- C4: for a latent batch whose leading dimension equals the constructed
`batch_size`, applying any dim-1 (time-axis) rearrangement `si` (in
particular any permutation of `Fin T`) to the input and then running
`EmissionDecoder.forward` equals running the forward pass first and then
rearranging the output's time axis: each time step is decoded independently
with shared weights. -/
theorem C4_time_equivariance (dc : DecCfg) (si : ℕ → ℕ) (B T L : ℕ)
    (d : List ℝ) (hB : B = dc.batch_size) (hsi : ∀ a < T, si a < T) :
    EmissionDecoder.forwardEval dc (permAxis1 si ⟨[B, T, L], d⟩) =
      (EmissionDecoder.forwardEval dc ⟨[B, T, L], d⟩).map (permAxis1 si) := by
  have hsiT : ∀ r < B * T, (fun r => r / T * T + si (r % T)) r < B * T := by
    intro r hr
    have hT : 0 < T := by
      rcases Nat.eq_zero_or_pos T with h0 | h0
      · rw [h0, mul_zero] at hr; omega
      · exact h0
    have h1 : r / T < B := by
      rw [Nat.div_lt_iff_lt_mul hT]
      exact hr
    have h2 : si (r % T) < T := hsi _ (Nat.mod_lt _ hT)
    have h5 : r / T * T + si (r % T) < (r / T + 1) * T := by
      have h6 := Nat.add_lt_add_left h2 (r / T * T)
      calc r / T * T + si (r % T) < r / T * T + T := h6
      _ = (r / T + 1) * T := by ring
    have h4 : (r / T + 1) * T ≤ B * T :=
      Nat.mul_le_mul_right T (Nat.succ_le_of_lt h1)
    exact lt_of_lt_of_le h5 h4
  unfold EmissionDecoder.forwardEval
  rw [flattenBT_permAxis1 si B T L d]
  cases hflat : flattenBT ⟨[B, T, L], d⟩ with
  | none => rfl
  | some z0 =>
    norm_num [flattenBT, Option.ite_none_right_eq_some,
      Option.some.injEq] at hflat
    obtain ⟨hpos, rfl⟩ := hflat
    simp only [Option.map_some', Option.some_bind]
    rw [runSeqEval_perm (decoder dc) _ (B * T) [L] d hsiT]
    cases hrun : runSeqEval (decoder dc) ⟨[B * T, L], d⟩ with
    | none => rfl
    | some xr =>
      obtain ⟨hM, hN, d0, rfl⟩ := decoder_run_shape hrun
      simp only [Option.map_some', Option.some_bind]
      have hBT : B * T = dc.batch_size * T := by rw [hB]
      rw [show (⟨[B * T, 1, 32, 32],
          rowData (B * T) 1024 1024
            (fun row j => CommonVAE.sigmoid (row j)) d0⟩ : Tensor) =
          ⟨[dc.batch_size * T, 1, 32, 32],
            rowData (dc.batch_size * T) 1024 1024
              (fun row j => CommonVAE.sigmoid (row j)) d0⟩ from by rw [hBT]]
      have hbs : 0 < dc.batch_size := by
        rcases Nat.eq_zero_or_pos dc.batch_size with h0 | h0
        · rw [← hB] at h0
          rw [h0, Nat.zero_mul] at hBT
          omega
        · exact h0
      exact finalView_permRows si dc.batch_size dc.dim T _ hbs

/-- Witness for C4: identity rearrangement on a `[1, 1, 1]` latent batch
with the `batch_size = 1` decoder. -/
theorem C4_witness :
    (1 = decW.batch_size) ∧
    EmissionDecoder.forwardEval decW (permAxis1 (fun a => a) ⟨[1, 1, 1], []⟩) =
      (EmissionDecoder.forwardEval decW ⟨[1, 1, 1], []⟩).map
        (permAxis1 (fun a => a)) :=
  ⟨rfl, C4_time_equivariance decW (fun a => a) 1 1 1 [] rfl fun _ ha => ha⟩

/-- `seqShape` distributes over list append. -/
theorem seqShape_append (a b : List Layer) :
    ∀ s : List ℕ, seqShape (a ++ b) s = (seqShape a s).bind (seqShape b) := by
  induction a with
  | nil => intro s; rfl
  | cons l ls ih =>
    intro s
    rw [List.cons_append, seqShape_cons, seqShape_cons, Option.bind_assoc]
    exact congrArg _ (funext ih)

/-- C6: the encoder pipeline is, in order, exactly three stages of
[strided convolution -> normalization -> leaky rectification] with output
widths `num_filters`, `num_filters*2`, `num_filters*4`, then average
pooling, then flattening; one convolution stage maps spatial size `h` (for
`h >= 1`) to `(h+1)/2` (exact halving for even `h`); on the canonical
28x28 input the stage shapes are 14x14, 7x7, 4x4, the average pooling
collapses 4x4 to 1x1, and the whole forward pass (pipeline, then the linear
projection, then tanh) maps `[n, z_amort, 28, 28]` to `[n, latent_dim]`. -/
theorem C6_encoder_architecture (e : EncCfg) (n h : ℕ) (hn : 0 < n)
    (hh : 1 ≤ h) :
    initial_encoder e =
      specConvStage e.z_amort e.num_filters e.c1 e.b1 ++
      specConvStage e.num_filters (e.num_filters * 2) e.c2 e.b2 ++
      specConvStage (e.num_filters * 2) (e.num_filters * 4) e.c3 e.b3 ++
      [.avgPool2d 4, .flatten] ∧
    Layer.outShape (.conv2d e.z_amort e.num_filters 5 2 2 e.c1.w e.c1.b)
      [n, e.z_amort, h, h] =
      some [n, e.num_filters, (h + 1) / 2, (h + 1) / 2] ∧
    seqShape (specConvStage e.z_amort e.num_filters e.c1 e.b1)
      [n, e.z_amort, 28, 28] = some [n, e.num_filters, 14, 14] ∧
    seqShape (specConvStage e.num_filters (e.num_filters * 2) e.c2 e.b2)
      [n, e.num_filters, 14, 14] = some [n, e.num_filters * 2, 7, 7] ∧
    seqShape (specConvStage (e.num_filters * 2) (e.num_filters * 4) e.c3
      e.b3) [n, e.num_filters * 2, 7, 7] =
      some [n, e.num_filters * 4, 4, 4] ∧
    Layer.outShape (.avgPool2d 4) [n, e.num_filters * 4, 4, 4] =
      some [n, e.num_filters * 4, 1, 1] ∧
    encForwardShape e [n, e.z_amort, 28, 28] = some [n, e.latent_dim] := by
  have harch : initial_encoder e =
      specConvStage e.z_amort e.num_filters e.c1 e.b1 ++
      specConvStage e.num_filters (e.num_filters * 2) e.c2 e.b2 ++
      specConvStage (e.num_filters * 2) (e.num_filters * 4) e.c3 e.b3 ++
      [.avgPool2d 4, .flatten] := rfl
  have hconv1h : Layer.outShape
      (.conv2d e.z_amort e.num_filters 5 2 2 e.c1.w e.c1.b)
      [n, e.z_amort, h, h] =
      some [n, e.num_filters, (h + 1) / 2, (h + 1) / 2] := by
    have hsz : (h + 2 * 2 - 5) / 2 + 1 = (h + 1) / 2 := by omega
    norm_num [Layer.outShape, hh]
    omega
  have hst1 : seqShape (specConvStage e.z_amort e.num_filters e.c1 e.b1)
      [n, e.z_amort, 28, 28] = some [n, e.num_filters, 14, 14] := by
    have ec : Layer.outShape
        (.conv2d e.z_amort e.num_filters 5 2 2 e.c1.w e.c1.b)
        [n, e.z_amort, 28, 28] = some [n, e.num_filters, 14, 14] := by
      norm_num [Layer.outShape]
    have eb : Layer.outShape
        (.batchNorm2d e.num_filters e.b1.ga e.b1.be e.b1.mu e.b1.va)
        [n, e.num_filters, 14, 14] = some [n, e.num_filters, 14, 14] := by
      norm_num [Layer.outShape]
    have el : Layer.outShape .leakyReLU [n, e.num_filters, 14, 14] =
        some [n, e.num_filters, 14, 14] := by
      norm_num [Layer.outShape]
    show seqShape [_, _, _] _ = _
    rw [seqShape_cons, ec, Option.some_bind, seqShape_cons, eb,
      Option.some_bind, seqShape_cons, el, Option.some_bind, seqShape_nil]
  have hst2 : seqShape
      (specConvStage e.num_filters (e.num_filters * 2) e.c2 e.b2)
      [n, e.num_filters, 14, 14] = some [n, e.num_filters * 2, 7, 7] := by
    have ec : Layer.outShape
        (.conv2d e.num_filters (e.num_filters * 2) 5 2 2 e.c2.w e.c2.b)
        [n, e.num_filters, 14, 14] = some [n, e.num_filters * 2, 7, 7] := by
      norm_num [Layer.outShape]
    have eb : Layer.outShape
        (.batchNorm2d (e.num_filters * 2) e.b2.ga e.b2.be e.b2.mu e.b2.va)
        [n, e.num_filters * 2, 7, 7] = some [n, e.num_filters * 2, 7, 7] := by
      norm_num [Layer.outShape]
    have el : Layer.outShape .leakyReLU [n, e.num_filters * 2, 7, 7] =
        some [n, e.num_filters * 2, 7, 7] := by
      norm_num [Layer.outShape]
    show seqShape [_, _, _] _ = _
    rw [seqShape_cons, ec, Option.some_bind, seqShape_cons, eb,
      Option.some_bind, seqShape_cons, el, Option.some_bind, seqShape_nil]
  have hst3 : seqShape
      (specConvStage (e.num_filters * 2) (e.num_filters * 4) e.c3 e.b3)
      [n, e.num_filters * 2, 7, 7] = some [n, e.num_filters * 4, 4, 4] := by
    have ec : Layer.outShape
        (.conv2d (e.num_filters * 2) (e.num_filters * 4) 5 2 2
          e.c3.w e.c3.b) [n, e.num_filters * 2, 7, 7] =
        some [n, e.num_filters * 4, 4, 4] := by
      norm_num [Layer.outShape]
    have eb : Layer.outShape
        (.batchNorm2d (e.num_filters * 4) e.b3.ga e.b3.be e.b3.mu e.b3.va)
        [n, e.num_filters * 4, 4, 4] = some [n, e.num_filters * 4, 4, 4] := by
      norm_num [Layer.outShape]
    have el : Layer.outShape .leakyReLU [n, e.num_filters * 4, 4, 4] =
        some [n, e.num_filters * 4, 4, 4] := by
      norm_num [Layer.outShape]
    show seqShape [_, _, _] _ = _
    rw [seqShape_cons, ec, Option.some_bind, seqShape_cons, eb,
      Option.some_bind, seqShape_cons, el, Option.some_bind, seqShape_nil]
  have hpool : Layer.outShape (.avgPool2d 4) [n, e.num_filters * 4, 4, 4] =
      some [n, e.num_filters * 4, 1, 1] := by
    norm_num [Layer.outShape]
  have hflat2 : Layer.outShape .flatten [n, e.num_filters * 4, 1, 1] =
      some [n, e.num_filters * 4] := by
    norm_num [Layer.outShape, hn]
  have hrun : seqShape (initial_encoder e) [n, e.z_amort, 28, 28] =
      some [n, e.num_filters * 4] := by
    rw [harch, seqShape_append, seqShape_append, seqShape_append, hst1,
      Option.some_bind, hst2, Option.some_bind, hst3, Option.some_bind,
      seqShape_cons, hpool, Option.some_bind, seqShape_cons, hflat2,
      Option.some_bind, seqShape_nil]
  refine ⟨harch, hconv1h, hst1, hst2, hst3, hpool, ?_⟩
  have hslice : sliceShape e.z_amort [n, e.z_amort, 28, 28] =
      some [n, e.z_amort, 28, 28] := by
    simp [sliceShape]
  have hlin : Layer.outShape
      (.linear (e.num_filters * 4) e.latent_dim e.outP.w e.outP.b)
      [n, e.num_filters * 4] = some [n, e.latent_dim] := by
    norm_num [Layer.outShape]
  have htanh : Layer.outShape .tanh [n, e.latent_dim] =
      some [n, e.latent_dim] := by
    norm_num [Layer.outShape]
  unfold encForwardShape
  rw [hslice, Option.some_bind, hrun, Option.some_bind, hlin,
    Option.some_bind, htanh]

/-- Witness for C6 at the concrete encoder `encW`, `n = 1`, `h = 28`. -/
theorem C6_witness :
    (0 : ℕ) < 1 ∧ (1 : ℕ) ≤ 28 ∧
    (initial_encoder encW =
      specConvStage encW.z_amort encW.num_filters encW.c1 encW.b1 ++
      specConvStage encW.num_filters (encW.num_filters * 2) encW.c2
        encW.b2 ++
      specConvStage (encW.num_filters * 2) (encW.num_filters * 4) encW.c3
        encW.b3 ++
      [.avgPool2d 4, .flatten] ∧
    Layer.outShape (.conv2d encW.z_amort encW.num_filters 5 2 2
      encW.c1.w encW.c1.b) [1, encW.z_amort, 28, 28] =
      some [1, encW.num_filters, (28 + 1) / 2, (28 + 1) / 2] ∧
    seqShape (specConvStage encW.z_amort encW.num_filters encW.c1 encW.b1)
      [1, encW.z_amort, 28, 28] = some [1, encW.num_filters, 14, 14] ∧
    seqShape (specConvStage encW.num_filters (encW.num_filters * 2) encW.c2
      encW.b2) [1, encW.num_filters, 14, 14] =
      some [1, encW.num_filters * 2, 7, 7] ∧
    seqShape (specConvStage (encW.num_filters * 2) (encW.num_filters * 4)
      encW.c3 encW.b3) [1, encW.num_filters * 2, 7, 7] =
      some [1, encW.num_filters * 4, 4, 4] ∧
    Layer.outShape (.avgPool2d 4) [1, encW.num_filters * 4, 4, 4] =
      some [1, encW.num_filters * 4, 1, 1] ∧
    encForwardShape encW [1, encW.z_amort, 28, 28] =
      some [1, encW.latent_dim]) :=
  ⟨by decide, by decide,
    C6_encoder_architecture encW 1 28 (by decide) (by decide)⟩

/-- C7 (amended): after the linear expansion to `conv_dim = num_filters *
4^3` and un-flattening to a 4x4 map with `conv_dim/16` channels, the
decoder has exactly three deconvolution stages, each upsampling the spatial
resolution (4 -> 7 -> 15 -> 32) and each followed by normalization and
leaky rectification; the FIRST stage preserves the channel width
(`conv_dim/16 = num_filters*4` in and out) while the LAST TWO halve it;
then a final spatial-size-preserving deconvolution to a single output
channel followed by the bounded saturating activation. -/
theorem C7_decoder_architecture (dc : DecCfg) (N : ℕ) (hN : 0 < N)
    (hnf : 0 < dc.num_filters) :
    decoder dc =
      [.linear dc.latent_dim (conv_dim dc) dc.lin.w dc.lin.b,
       .batchNorm1d (conv_dim dc) dc.b0.ga dc.b0.be dc.b0.mu dc.b0.va,
       .leakyReLU,
       .unflatten 4] ++
      specDeconvStage (conv_dim dc / 16) (dc.num_filters * 4) 4 1 0 0
        dc.d1 dc.m1 ++
      specDeconvStage (dc.num_filters * 4) (dc.num_filters * 2) 5 2 1 0
        dc.d2 dc.m2 ++
      specDeconvStage (dc.num_filters * 2) dc.num_filters 5 2 1 1
        dc.d3 dc.m3 ++
      [.convT2d dc.num_filters 1 5 1 2 0 dc.d4.w dc.d4.b, .sigmoid] ∧
    conv_dim dc = dc.num_filters * 4 ^ 3 ∧
    conv_dim dc / 16 = dc.num_filters * 4 ∧
    dc.num_filters * 2 = dc.num_filters * 4 / 2 ∧
    dc.num_filters = dc.num_filters * 2 / 2 ∧
    seqShape [.linear dc.latent_dim (conv_dim dc) dc.lin.w dc.lin.b,
       .batchNorm1d (conv_dim dc) dc.b0.ga dc.b0.be dc.b0.mu dc.b0.va,
       .leakyReLU,
       .unflatten 4] [N, dc.latent_dim] =
      some [N, conv_dim dc / 16, 4, 4] ∧
    seqShape (specDeconvStage (conv_dim dc / 16) (dc.num_filters * 4)
        4 1 0 0 dc.d1 dc.m1) [N, conv_dim dc / 16, 4, 4] =
      some [N, dc.num_filters * 4, 7, 7] ∧
    seqShape (specDeconvStage (dc.num_filters * 4) (dc.num_filters * 2)
        5 2 1 0 dc.d2 dc.m2) [N, dc.num_filters * 4, 7, 7] =
      some [N, dc.num_filters * 2, 15, 15] ∧
    seqShape (specDeconvStage (dc.num_filters * 2) dc.num_filters
        5 2 1 1 dc.d3 dc.m3) [N, dc.num_filters * 2, 15, 15] =
      some [N, dc.num_filters, 32, 32] ∧
    Layer.outShape (.convT2d dc.num_filters 1 5 1 2 0 dc.d4.w dc.d4.b)
      [N, dc.num_filters, 32, 32] = some [N, 1, 32, 32] ∧
    seqShape (decoder dc) [N, dc.latent_dim] = some [N, 1, 32, 32] := by
  have h16 : (16 : ℕ) ∣ conv_dim dc := ⟨dc.num_filters * 4, by
    unfold conv_dim; ring⟩
  have hcd : 0 < conv_dim dc := by
    unfold conv_dim; positivity
  have hdiv : conv_dim dc / 16 = dc.num_filters * 4 := by
    unfold conv_dim
    omega
  refine ⟨rfl, rfl, hdiv, by omega, by omega, ?_, ?_, ?_, ?_, ?_,
    decoder_seqShape_eq dc N hN hnf⟩
  · have e1 : Layer.outShape
        (.linear dc.latent_dim (conv_dim dc) dc.lin.w dc.lin.b)
        [N, dc.latent_dim] = some [N, conv_dim dc] := by
      norm_num [Layer.outShape]
    have e2 : Layer.outShape
        (.batchNorm1d (conv_dim dc) dc.b0.ga dc.b0.be dc.b0.mu dc.b0.va)
        [N, conv_dim dc] = some [N, conv_dim dc] := by
      norm_num [Layer.outShape]
    have e3 : Layer.outShape .leakyReLU [N, conv_dim dc] =
        some [N, conv_dim dc] := by
      norm_num [Layer.outShape]
    have e4 : Layer.outShape (.unflatten 4) [N, conv_dim dc] =
        some [N, conv_dim dc / 16, 4, 4] := by
      norm_num [Layer.outShape, hN, hcd, h16]
    rw [seqShape_cons, e1, Option.some_bind, seqShape_cons, e2,
      Option.some_bind, seqShape_cons, e3, Option.some_bind, seqShape_cons,
      e4, Option.some_bind, seqShape_nil]
  · have ec : Layer.outShape
        (.convT2d (conv_dim dc / 16) (dc.num_filters * 4) 4 1 0 0
          dc.d1.w dc.d1.b) [N, conv_dim dc / 16, 4, 4] =
        some [N, dc.num_filters * 4, 7, 7] := by
      norm_num [Layer.outShape]
    have eb : Layer.outShape
        (.batchNorm2d (dc.num_filters * 4) dc.m1.ga dc.m1.be dc.m1.mu
          dc.m1.va) [N, dc.num_filters * 4, 7, 7] =
        some [N, dc.num_filters * 4, 7, 7] := by
      norm_num [Layer.outShape]
    have el : Layer.outShape .leakyReLU [N, dc.num_filters * 4, 7, 7] =
        some [N, dc.num_filters * 4, 7, 7] := by
      norm_num [Layer.outShape]
    show seqShape [_, _, _] _ = _
    rw [seqShape_cons, ec, Option.some_bind, seqShape_cons, eb,
      Option.some_bind, seqShape_cons, el, Option.some_bind, seqShape_nil]
  · have ec : Layer.outShape
        (.convT2d (dc.num_filters * 4) (dc.num_filters * 2) 5 2 1 0
          dc.d2.w dc.d2.b) [N, dc.num_filters * 4, 7, 7] =
        some [N, dc.num_filters * 2, 15, 15] := by
      norm_num [Layer.outShape]
    have eb : Layer.outShape
        (.batchNorm2d (dc.num_filters * 2) dc.m2.ga dc.m2.be dc.m2.mu
          dc.m2.va) [N, dc.num_filters * 2, 15, 15] =
        some [N, dc.num_filters * 2, 15, 15] := by
      norm_num [Layer.outShape]
    have el : Layer.outShape .leakyReLU [N, dc.num_filters * 2, 15, 15] =
        some [N, dc.num_filters * 2, 15, 15] := by
      norm_num [Layer.outShape]
    show seqShape [_, _, _] _ = _
    rw [seqShape_cons, ec, Option.some_bind, seqShape_cons, eb,
      Option.some_bind, seqShape_cons, el, Option.some_bind, seqShape_nil]
  · have ec : Layer.outShape
        (.convT2d (dc.num_filters * 2) dc.num_filters 5 2 1 1
          dc.d3.w dc.d3.b) [N, dc.num_filters * 2, 15, 15] =
        some [N, dc.num_filters, 32, 32] := by
      norm_num [Layer.outShape]
    have eb : Layer.outShape
        (.batchNorm2d dc.num_filters dc.m3.ga dc.m3.be dc.m3.mu dc.m3.va)
        [N, dc.num_filters, 32, 32] = some [N, dc.num_filters, 32, 32] := by
      norm_num [Layer.outShape]
    have el : Layer.outShape .leakyReLU [N, dc.num_filters, 32, 32] =
        some [N, dc.num_filters, 32, 32] := by
      norm_num [Layer.outShape]
    show seqShape [_, _, _] _ = _
    rw [seqShape_cons, ec, Option.some_bind, seqShape_cons, eb,
      Option.some_bind, seqShape_cons, el, Option.some_bind, seqShape_nil]
  · norm_num [Layer.outShape]

/-- Witness for the amended C7 at the concrete decoder `decW`, `N = 1`. -/
theorem C7_witness :
    (0 : ℕ) < 1 ∧ 0 < decW.num_filters ∧
    (conv_dim decW / 16 = decW.num_filters * 4 ∧
      seqShape (decoder decW) [1, decW.latent_dim] = some [1, 1, 32, 32]) := by
  obtain ⟨-, -, h3, -, -, -, -, -, -, -, h11⟩ :=
    C7_decoder_architecture decW 1 (by decide) (by decide)
  exact ⟨by decide, by decide, h3, h11⟩

/-- Counterexample to C7 as stated: the claim says the first two of the
three deconvolution stages halve the channel width, but with
`num_filters = 1` the first deconvolution stage (layer 4 of the decoder)
maps `conv_dim/16 = 4` channels to `num_filters * 4 = 4` channels — the
width is preserved, not halved (`4 ≠ 4 / 2`). -/
theorem C7_counterexample :
    (decoder decW)[4]? = some (.convT2d (conv_dim decW / 16)
      (decW.num_filters * 4) 4 1 0 0 decW.d1.w decW.d1.b) ∧
    conv_dim decW / 16 = 4 ∧ decW.num_filters * 4 = 4 ∧
    (4 : ℕ) ≠ 4 / 2 :=
  ⟨rfl, by decide, by decide, by decide⟩

/-! ### Training mode: what a forward pass can and cannot mutate -/

theorem applyTrain_stripStats {l : Layer} {t : Tensor} {p : Layer × Tensor}
    (h : Layer.applyTrain l t = some p) :
    p.1.stripStats = l.stripStats := by
  obtain ⟨s, d⟩ := t
  cases l with
  | batchNorm2d c ga be mu va =>
    rcases s with _ | ⟨n, _ | ⟨a, _ | ⟨b, _ | ⟨w, _ | ⟨e, s⟩⟩⟩⟩⟩ <;>
      simp only [Layer.applyTrain] at h <;>
      (try exact Option.noConfusion h)
    split_ifs at h with hg
    first
      | exact Option.noConfusion h
      | (rw [Option.some.injEq] at h; rw [← h]; rfl)
  | batchNorm1d dd ga be mu va =>
    rcases s with _ | ⟨n, _ | ⟨a, _ | ⟨b, s⟩⟩⟩ <;>
      simp only [Layer.applyTrain] at h <;>
      (try exact Option.noConfusion h)
    split_ifs at h with hg
    first
      | exact Option.noConfusion h
      | (rw [Option.some.injEq] at h; rw [← h]; rfl)
  | conv2d cin cout k st pp wt bs =>
    simp only [Layer.applyTrain, Option.map_eq_some'] at h
    obtain ⟨a, -, hp⟩ := h
    rw [← hp]
  | leakyReLU =>
    simp only [Layer.applyTrain, Option.map_eq_some'] at h
    obtain ⟨a, -, hp⟩ := h
    rw [← hp]
  | avgPool2d k =>
    simp only [Layer.applyTrain, Option.map_eq_some'] at h
    obtain ⟨a, -, hp⟩ := h
    rw [← hp]
  | flatten =>
    simp only [Layer.applyTrain, Option.map_eq_some'] at h
    obtain ⟨a, -, hp⟩ := h
    rw [← hp]
  | linear din dout wt bs =>
    simp only [Layer.applyTrain, Option.map_eq_some'] at h
    obtain ⟨a, -, hp⟩ := h
    rw [← hp]
  | tanh =>
    simp only [Layer.applyTrain, Option.map_eq_some'] at h
    obtain ⟨a, -, hp⟩ := h
    rw [← hp]
  | unflatten sz =>
    simp only [Layer.applyTrain, Option.map_eq_some'] at h
    obtain ⟨a, -, hp⟩ := h
    rw [← hp]
  | convT2d cin cout k st pp op wt bs =>
    simp only [Layer.applyTrain, Option.map_eq_some'] at h
    obtain ⟨a, -, hp⟩ := h
    rw [← hp]
  | sigmoid =>
    simp only [Layer.applyTrain, Option.map_eq_some'] at h
    obtain ⟨a, -, hp⟩ := h
    rw [← hp]

theorem runSeqTrain_stripStats {ls : List Layer} :
    ∀ {t : Tensor} {q : List Layer × Tensor}, runSeqTrain ls t = some q →
      q.1.map Layer.stripStats = ls.map Layer.stripStats := by
  induction ls with
  | nil =>
    intro t q h
    rw [runSeqTrain, Option.some.injEq] at h
    rw [← h]
  | cons l ls ih =>
    intro t q h
    rw [runSeqTrain, Option.bind_eq_some] at h
    obtain ⟨p, hp, h⟩ := h
    rw [Option.map_eq_some'] at h
    obtain ⟨q2, hq2, h⟩ := h
    rw [← h]
    show (p.1 :: q2.1).map Layer.stripStats = (l :: ls).map Layer.stripStats
    rw [List.map_cons, List.map_cons, applyTrain_stripStats hp, ih hq2]

theorem runSeqEvalSt_const {ls : List Layer} :
    ∀ {t : Tensor} {q : List Layer × Tensor}, runSeqEvalSt ls t = some q →
      q.1 = ls := by
  induction ls with
  | nil =>
    intro t q h
    rw [runSeqEvalSt, Option.some.injEq] at h
    rw [← h]
  | cons l ls ih =>
    intro t q h
    rw [runSeqEvalSt, Option.bind_eq_some] at h
    obtain ⟨p, hp, h⟩ := h
    rw [Option.map_eq_some'] at h
    obtain ⟨q2, hq2, h⟩ := h
    rw [Layer.applyEvalSt, Option.map_eq_some'] at hp
    obtain ⟨a, -, hpl⟩ := hp
    rw [← h]
    show (p.1 :: q2.1) = l :: ls
    rw [← hpl, ih hq2]

/-- C9 (amended): in inference mode a forward pass leaves all module state
unchanged (the stateful reading of an `eval`-mode sequential run returns
the layers as they were); in training mode, a `LatentStateEncoder` forward
pass leaves every learned weight and the layer structure unchanged — the
layer list after the call agrees with `initial_encoder` up to the
`BatchNorm2d` running-statistics buffers, which are the only state a
training-mode forward pass mutates (see the counterexample for an actual
mutation). -/
theorem C9_forward_side_effects :
    (∀ (ls : List Layer) (t : Tensor) (q : List Layer × Tensor),
      runSeqEvalSt ls t = some q → q.1 = ls) ∧
    (∀ (e : EncCfg) (x : Tensor) (q : List Layer × Tensor),
      LatentStateEncoder.forwardTrain e x = some q →
        q.1.map Layer.stripStats =
          (initial_encoder e).map Layer.stripStats) := by
  constructor
  · intro ls t q h
    exact runSeqEvalSt_const h
  · intro e x q h
    simp only [LatentStateEncoder.forwardTrain, Option.bind_eq_some] at h
    obtain ⟨x0, -, p, hp, h⟩ := h
    obtain ⟨z1, -, h⟩ := h
    rw [Option.map_eq_some'] at h
    obtain ⟨z2, -, h⟩ := h
    rw [← h]
    show p.1.map Layer.stripStats = (initial_encoder e).map Layer.stripStats
    exact runSeqTrain_stripStats hp

/-- Witness for the amended C9: the concrete training-mode run of `encC9`
on `xC9` succeeds and keeps all weights and the layer structure. -/
theorem C9_witness :
    ∃ q, LatentStateEncoder.forwardTrain encC9 xC9 = some q ∧
      q.1.map Layer.stripStats =
        (initial_encoder encC9).map Layer.stripStats :=
  ⟨_, rfl, C9_forward_side_effects.2 encC9 xC9 _ rfl⟩

theorem runSeqTrain_cons (l : Layer) (ls : List Layer) (t : Tensor) :
    runSeqTrain (l :: ls) t = (Layer.applyTrain l t).bind fun p =>
      (runSeqTrain ls p.2).map fun q => (p.1 :: q.1, q.2) := rfl

/-- Every in-range entry of the first convolution's output in the `encC9`
run is 1: the weights are all 0 (out-of-range reads) and the bias is 1. -/
theorem convC9_getD (dsl : List ℝ) {j : ℕ} (hj : j < 196) :
    (rowData 1 784 196 (convG 1 28 28 5 2 2 14 14 [] [1]) dsl).getD j 0
      = 1 := by
  rw [rowData_getD _ _ (by omega : j < 1 * 196)]
  norm_num [convG, List.getD_nil, Nat.mod_eq_of_lt hj, Nat.div_eq_of_lt hj]

/-- Hence the training-mode batch mean of that channel is 1. -/
theorem bnMeanC9 (dsl : List ℝ) :
    bnBatchMean2d 1 1 14 14
      (rowData 1 784 196 (convG 1 28 28 5 2 2 14 14 [] [1]) dsl) 0 = 1 := by
  unfold bnBatchMean2d
  rw [Finset.sum_congr rfl fun bi hbi => Finset.sum_congr rfl fun y hy =>
    Finset.sum_congr rfl fun x hx => convC9_getD dsl (by
      have h1 := Finset.mem_range.1 hbi
      have h2 := Finset.mem_range.1 hy
      have h3 := Finset.mem_range.1 hx
      omega)]
  norm_num

set_option maxRecDepth 8000 in
/-- Counterexample to C9 as stated: a training-mode forward pass of
`LatentStateEncoder` DOES mutate per-layer statistics buffers.  On the
concrete `encC9` (first convolution bias 1, first `BatchNorm2d` running
mean buffer `[0]`) and the zero `[1, 1, 28, 28]` input, the forward pass
succeeds and returns a layer list different from `initial_encoder encC9`:
the first BatchNorm's running mean buffer has been overwritten with
`(1 - 0.1) * 0 + 0.1 * 1 = 0.1 ≠ 0`. -/
theorem C9_counterexample :
    ∃ q, LatentStateEncoder.forwardTrain encC9 xC9 = some q ∧
      q.1 ≠ initial_encoder encC9 := by
  have harch : initial_encoder encC9 =
      [.conv2d 1 1 5 2 2 [] [1],
       .batchNorm2d 1 [] [] [0] [],
       .leakyReLU,
       .conv2d 1 2 5 2 2 [] [],
       .batchNorm2d 2 [] [] [] [],
       .leakyReLU,
       .conv2d 2 4 5 2 2 [] [],
       .batchNorm2d 4 [] [] [] [],
       .leakyReLU,
       .avgPool2d 4,
       .flatten] := rfl
  obtain ⟨p, hp⟩ : ∃ p, LatentStateEncoder.forwardTrain encC9 xC9 = some p :=
    ⟨_, rfl⟩
  refine ⟨p, hp, ?_⟩
  simp only [LatentStateEncoder.forwardTrain, Option.bind_eq_some] at hp
  obtain ⟨x0, hslice, hp⟩ := hp
  norm_num [xC9, encC9, sliceChannels, Option.some.injEq] at hslice
  obtain rfl := hslice
  obtain ⟨q, hrun, hp⟩ := hp
  rw [harch, runSeqTrain_cons, Option.bind_eq_some] at hrun
  obtain ⟨p1, hc1, hrun⟩ := hrun
  norm_num [Layer.applyTrain, Layer.applyEval, Option.map_eq_some',
    Option.some.injEq] at hc1
  obtain rfl := hc1
  rw [runSeqTrain_cons, Option.map_eq_some'] at hrun
  obtain ⟨q1, hrun1, hq⟩ := hrun
  rw [Option.bind_eq_some] at hrun1
  obtain ⟨p2, hb1, hrun1⟩ := hrun1
  norm_num [Layer.applyTrain, Option.some.injEq] at hb1
  obtain rfl := hb1
  rw [Option.map_eq_some'] at hrun1
  obtain ⟨q2, -, hq1⟩ := hrun1
  obtain ⟨z1, -, hp⟩ := hp
  rw [Option.map_eq_some'] at hp
  obtain ⟨z2, -, hp⟩ := hp
  rw [← hp]
  show q.1 ≠ initial_encoder encC9
  rw [← hq]
  show _ :: q1.1 ≠ initial_encoder encC9
  rw [← hq1]
  rw [harch]
  intro heq
  injection heq with e1 etail
  injection etail with e2 etail2
  injection e2 with f1 f2 f3 f4 f5
  have h3 := congrArg (fun l => List.getD l 0 (0 : ℝ)) f4
  simp only at h3
  rw [build1_getD _ (by norm_num : (0 : ℕ) < 1)] at h3
  rw [bnMeanC9] at h3
  norm_num [bnMomentum] at h3

end CommonVAE
